import Mathlib

/-!
Verification of `src/ahs/annofab_har_sanitizer.py`.

The development shallowly embeds the sanitizer: JSON documents become an
inductive tree, Python's in-place dict/list mutation becomes functional
update, and `KeyError` / `TypeError` become an `Except` error monad.

The sanitizer delegates URL work to the host platform's standard library
(`urllib.parse`).  Those functions are modelled from the CPython 3.11
implementation of `urlparse`, `parse_qs`, `urlencode`, `urlunparse`,
`quote_plus` and `unquote` (including WHATWG left-stripping of control
characters, removal of tab/CR/LF, dropping of blank query values, UTF-8
percent-decoding with replacement characters, and the `uses_netloc`
condition of `urlunsplit`).  Omitted from the model: the `ValueError`
raised by `urlsplit` for unbalanced IPv6 brackets and for non-ASCII
netlocs whose NFKC normalization introduces separators (no claim touches
those inputs; the model treats parsing as total there).
-/

namespace AHS

/-- The redaction marker `STR_REDACTED` of the source. -/
def STR_REDACTED : String := "REDACTED"

/-- The sensitive query-string keys `SENSITIVE_KEYS` of the source (a
Python `set`; modelled as a list, used only through membership). -/
def SENSITIVE_KEYS : List String := ["X-Amz-Credential", "X-Amz-Signature", "X-Amz-Security-Token"]

/-! ## Character classes used by `urllib.parse` -/

/-- Characters of `_WHATWG_C0_CONTROL_OR_SPACE` (code points 0x00–0x20). -/
def isC0OrSpace (c : Char) : Bool := c.toNat ≤ 32

/-- Characters of `_UNSAFE_URL_BYTES_TO_REMOVE` (tab, CR, LF). -/
def isUnsafeUrlChar (c : Char) : Bool := c = '\t' || c = '\r' || c = '\n'

/-- Characters of `scheme_chars` (ASCII letters, digits, `+`, `-`, `.`). -/
def schemeChar (c : Char) : Bool := c.isAlpha || c.isDigit || c = '+' || c = '-' || c = '.'

/-- Characters of `_ALWAYS_SAFE` (ASCII letters, digits, `_`, `.`, `-`,
`~`; given by code point, since `_ALWAYS_SAFE` is a byte set). -/
def alwaysSafeChar (c : Char) : Bool :=
  (65 ≤ c.toNat && c.toNat ≤ 90) || (97 ≤ c.toNat && c.toNat ≤ 122) ||
  (48 ≤ c.toNat && c.toNat ≤ 57) || c = '_' || c = '.' || c = '-' || c = '~'

/-- ASCII range test, as used by the regex `([\x00-\x7f]+)` in `unquote`. -/
def isAsciiChar (c : Char) : Bool := c.toNat ≤ 127

/-! ## UTF-8 encoding and decoding

`str.encode('utf-8')` and `bytes.decode('utf-8', errors='replace')`,
modelled over `List Nat` byte strings.  The decoder follows CPython's
maximal-subpart replacement policy. -/

/-- UTF-8 encoding of one unicode scalar value, as a byte list. -/
def utf8Bytes (c : Char) : List Nat :=
  let n := c.toNat
  if n < 128 then [n]
  else if n < 2048 then [192 + n / 64, 128 + n % 64]
  else if n < 65536 then [224 + n / 4096, 128 + n / 64 % 64, 128 + n % 64]
  else [240 + n / 262144, 128 + n / 4096 % 64, 128 + n / 64 % 64, 128 + n % 64]

/-- The replacement character U+FFFD produced by `errors='replace'`. -/
def replChar : Char := Char.ofNat 65533

/-- UTF-8 continuation byte test (0x80–0xBF). -/
def contByte (b : Nat) : Bool := 128 ≤ b && b ≤ 191

/-- Admissible second byte of a multi-byte sequence, given the lead byte
(the E0/ED and F0/F4 rows of the UTF-8 well-formedness table). -/
def secondByteOK (lead b : Nat) : Bool :=
  if lead = 224 then 160 ≤ b && b ≤ 191
  else if lead = 237 then 128 ≤ b && b ≤ 159
  else if lead = 240 then 144 ≤ b && b ≤ 191
  else if lead = 244 then 128 ≤ b && b ≤ 143
  else contByte b

/-- Classification of a byte at the start of a UTF-8 sequence: either a
finished output (an ASCII character, or a replacement character for an
invalid lead byte), or the decoder state for a multi-byte sequence —
`(missing continuation count, accumulated value, low, high)` where
`[low, high]` is the admissible range of the next byte (the E0/ED/F0/F4
rows of the UTF-8 well-formedness table). -/
def startByte (b : Nat) : List Char ⊕ (Nat × Nat × Nat × Nat) :=
  if b < 128 then .inl [Char.ofNat b]
  else if b < 194 then .inl [replChar]
  else if b < 224 then .inr (1, b - 192, 128, 191)
  else if b = 224 then .inr (2, 0, 160, 191)
  else if b = 237 then .inr (2, 13, 128, 159)
  else if b < 240 then .inr (2, b - 224, 128, 191)
  else if b = 240 then .inr (3, 0, 144, 191)
  else if b = 244 then .inr (3, 4, 128, 143)
  else if b < 245 then .inr (3, b - 240, 128, 191)
  else .inl [replChar]

/-- The decoding loop of `bytes.decode('utf-8', errors='replace')`,
consuming one byte per step.  An invalid or missing continuation byte
turns the pending maximal subpart into one replacement character and
restarts at the offending byte. -/
def utf8Loop : Option (Nat × Nat × Nat × Nat) → List Nat → List Char
  | none, [] => []
  | some _, [] => [replChar]
  | none, b :: bs =>
    (match startByte b with
     | .inl cs => cs ++ utf8Loop none bs
     | .inr st => utf8Loop (some st) bs)
  | some st, b :: bs =>
    if st.2.2.1 ≤ b ∧ b ≤ st.2.2.2 then
      (if st.1 = 1 then Char.ofNat (st.2.1 * 64 + (b - 128)) :: utf8Loop none bs
       else utf8Loop (some (st.1 - 1, st.2.1 * 64 + (b - 128), 128, 191)) bs)
    else
      replChar ::
        (match startByte b with
         | .inl cs => cs ++ utf8Loop none bs
         | .inr st2 => utf8Loop (some st2) bs)

/-- UTF-8 decoding with `errors='replace'`. -/
def utf8DecodeReplace (bs : List Nat) : List Char := utf8Loop none bs

/-! ## Percent encoding and decoding -/

/-- Value of one hexadecimal digit (both cases), `none` otherwise. -/
def hexVal (c : Char) : Option Nat :=
  if '0' ≤ c ∧ c ≤ '9' then some (c.toNat - 48)
  else if 'A' ≤ c ∧ c ≤ 'F' then some (c.toNat - 55)
  else if 'a' ≤ c ∧ c ≤ 'f' then some (c.toNat - 87)
  else none

/-- Uppercase hexadecimal digit for a value below 16 (as in `'%{:02X}'`). -/
def hexUpper (n : Nat) : Char := if n < 10 then Char.ofNat (48 + n) else Char.ofNat (55 + n)

/-- Percent-escape of one byte. -/
def percentEncodeByte (b : Nat) : List Char := ['%', hexUpper (b / 16), hexUpper (b % 16)]

/-- The percent-decoding loop of `unquote_to_bytes`, consuming one
character per step.  State: `none` = normal, `some none` = a `%` was
seen, `some (some a)` = `%` and a first hex digit `a` were seen.  An
escape whose two characters are not both hex digits leaves the `%` (and
the first character) literal, exactly as `unquote_to_bytes` does. -/
def pctLoop : Option (Option Char) → List Char → List Nat
  | none, [] => []
  | some none, [] => [37]
  | some (some a), [] => [37, a.toNat]
  | none, c :: rest =>
    if c = '%' then pctLoop (some none) rest else c.toNat :: pctLoop none rest
  | some none, c :: rest =>
    (match hexVal c with
     | some _ => pctLoop (some (some c)) rest
     | none =>
       37 :: (if c = '%' then pctLoop (some none) rest else c.toNat :: pctLoop none rest))
  | some (some a), c :: rest =>
    (match hexVal a, hexVal c with
     | some x, some y => (16 * x + y) :: pctLoop none rest
     | _, _ =>
       37 :: a.toNat ::
         (if c = '%' then pctLoop (some none) rest else c.toNat :: pctLoop none rest))

/-- Byte string named by an ASCII run, with `%XX` escapes decoded. -/
def percentDecode (cs : List Char) : List Nat := pctLoop none cs

/-- Encoding of one character under `quote_plus` with `safe=''`:
always-safe characters stay, a space becomes `+`, anything else is
percent-escaped bytewise. -/
def quotePlusChar (c : Char) : List Char :=
  if alwaysSafeChar c then [c]
  else if c = ' ' then ['+']
  else (utf8Bytes c).flatMap percentEncodeByte

/-- CPython `quote_plus(s, safe='')`, over character lists. -/
def quote_plus (cs : List Char) : List Char := cs.flatMap quotePlusChar

/-- Prepends an ASCII character to a run split: it merges into a leading
run, or starts a new one. -/
def asciiSplitStep (c : Char) : List (List Char ⊕ Char) → List (List Char ⊕ Char)
  | .inl run :: rs => .inl (c :: run) :: rs
  | r => .inl [c] :: r

/-- Splits a string into maximal ASCII runs and single non-ASCII
characters (the split by the regex `([\x00-\x7f]+)` in `unquote`). -/
def asciiSplit : List Char → List (List Char ⊕ Char)
  | [] => []
  | c :: rest =>
    if isAsciiChar c then asciiSplitStep c (asciiSplit rest)
    else .inr c :: asciiSplit rest

/-- CPython `unquote(s, 'utf-8', 'replace')`: maximal ASCII runs are
percent-decoded to bytes and UTF-8-decoded, non-ASCII characters pass
through unchanged. -/
def unquoteChars (cs : List Char) : List Char :=
  (asciiSplit cs).flatMap (fun t =>
    match t with
    | .inl run => utf8DecodeReplace (percentDecode run)
    | .inr c => [c])

/-- Replacement of `+` by a space, as done before `unquote` by
`unquote_plus` and by `parse_qsl`. -/
def plusToSpace (cs : List Char) : List Char := cs.map (fun c => if c = '+' then ' ' else c)

/-- CPython `unquote_plus(s)`, over character lists. -/
def unquote_plus (cs : List Char) : List Char := unquoteChars (plusToSpace cs)

/-! ## Generic splitting helpers -/

/-- Splits at the first occurrence of `sep`, if any (`str.split(sep, 1)`). -/
def splitAtFirst (sep : Char) : List Char → Option (List Char × List Char)
  | [] => none
  | c :: rest =>
    if c = sep then some ([], rest)
    else (splitAtFirst sep rest).map (fun p => (c :: p.1, p.2))

/-- Splits around the last occurrence of `sep`, if any. -/
def splitAtLast (sep : Char) : List Char → Option (List Char × List Char)
  | [] => none
  | c :: rest =>
    match splitAtLast sep rest with
    | some p => some (c :: p.1, p.2)
    | none => if c = sep then some ([], rest) else none

/-- Full split on a separator character (`str.split(sep)`). -/
def splitOnChar (sep : Char) : List Char → List (List Char)
  | [] => [[]]
  | c :: rest =>
    match splitOnChar sep rest with
    | [] => [[]]
    | r :: rs => if c = sep then [] :: r :: rs else (c :: r) :: rs

/-- Interleaves `&` between pieces (`'&'.join`). -/
def joinWithAmp : List (List Char) → List Char
  | [] => []
  | [p] => p
  | p :: ps => p ++ '&' :: joinWithAmp ps

/-! ## Query-string parsing and encoding -/

/-- CPython `parse_qsl(qs)` with default arguments: split on `&`, skip
empty fields, skip fields without `=` and fields with an empty raw value,
then decode name and value with `unquote_plus`. -/
def parse_qsl (qs : List Char) : List (List Char × List Char) :=
  (splitOnChar '&' qs).filterMap (fun nv =>
    if nv = [] then none
    else
      match splitAtFirst '=' nv with
      | none => none
      | some p => if p.2 = [] then none else some (unquote_plus p.1, unquote_plus p.2))

/-- One step of the grouping loop of `parse_qs`: append the value to an
existing entry for the name, else add a new entry at the end (Python dict
insertion order). -/
def addQsPair : List (List Char × List (List Char)) → List Char × List Char →
    List (List Char × List (List Char))
  | [], kv => [(kv.1, [kv.2])]
  | e :: rest, kv =>
    if e.1 = kv.1 then (e.1, e.2 ++ [kv.2]) :: rest else e :: addQsPair rest kv

/-- CPython `parse_qs(qs)` with default arguments, as an ordered
association list (Python dict preserving insertion order). -/
def parse_qs (qs : List Char) : List (List Char × List (List Char)) :=
  (parse_qsl qs).foldl addQsPair []

/-- CPython `urlencode(query, doseq=True)` on a dict of string lists. -/
def urlencode (q : List (List Char × List (List Char))) : List Char :=
  joinWithAmp (q.flatMap (fun kv => kv.2.map (fun v => quote_plus kv.1 ++ '=' :: quote_plus v)))

/-- The masking loop of `mask_query_string`: every value sequence stored
under a masked key is replaced by equally many copies of the redaction
marker.  (The source iterates over the key set and updates the dict in
place; since `parse_qs` returns distinct keys this equals a map over the
entries.) -/
def maskParams (keys : List (List Char)) (q : List (List Char × List (List Char))) :
    List (List Char × List (List Char)) :=
  q.map (fun kv =>
    if kv.1 ∈ keys then (kv.1, List.replicate kv.2.length STR_REDACTED.data) else kv)

/-! ## URL parsing (`urlparse`) and reassembly (`urlunparse`) -/

/-- The six components of `urlparse`'s result. -/
structure UrlParts where
  scheme : List Char
  netloc : List Char
  path : List Char
  params : List Char
  query : List Char
  fragment : List Char

/-- The input normalization of `urlsplit`: left-strip C0 controls and
space, then remove tab, CR and LF everywhere. -/
def cleanUrl (cs : List Char) : List Char :=
  (cs.dropWhile isC0OrSpace).filter (fun c => !isUnsafeUrlChar c)

/-- The scheme extraction of `urlsplit`: the part before the first `:` is
taken (lowercased) when it is nonempty, starts with an ASCII letter and
consists of scheme characters. -/
def splitScheme (cs : List Char) : List Char × List Char :=
  match splitAtFirst ':' cs with
  | none => ([], cs)
  | some p =>
    match p.1 with
    | [] => ([], cs)
    | a :: pre =>
      if a.isAlpha && (a :: pre).all schemeChar then ((a :: pre).map Char.toLower, p.2)
      else ([], cs)

/-- Stop characters of `_splitnetloc`. -/
def netlocEnd (c : Char) : Bool := c = '/' || c = '?' || c = '#'

/-- The netloc extraction of `urlsplit`: after a leading `//`, the netloc
runs to the next `/`, `?` or `#`. -/
def splitNetloc : List Char → List Char × List Char
  | '/' :: '/' :: rest =>
    (rest.takeWhile (fun c => !netlocEnd c), rest.dropWhile (fun c => !netlocEnd c))
  | cs => ([], cs)

/-- The fragment split of `urlsplit` (`url.split('#', 1)` when present). -/
def splitHash (cs : List Char) : List Char × List Char :=
  match splitAtFirst '#' cs with
  | none => (cs, [])
  | some p => p

/-- The query split of `urlsplit` (`url.split('?', 1)` when present). -/
def splitQmark (cs : List Char) : List Char × List Char :=
  match splitAtFirst '?' cs with
  | none => (cs, [])
  | some p => p

/-- CPython `_splitparams`, guarded by `';' in url` as in `urlparse`:
split at the first `;` that follows the last `/` (or the first `;` at all
when there is no `/`). -/
def splitParams (cs : List Char) : List Char × List Char :=
  if ';' ∈ cs then
    match splitAtLast '/' cs with
    | some ab =>
      match splitAtFirst ';' ab.2 with
      | some b12 => (ab.1 ++ '/' :: b12.1, b12.2)
      | none => (cs, [])
    | none =>
      match splitAtFirst ';' cs with
      | some c12 => (c12.1, c12.2)
      | none => (cs, [])
  else (cs, [])

/-- CPython 3.11 `urlparse` on a character list (total model; see the
file comment for the omitted `ValueError` paths). -/
def urlparse (url : List Char) : UrlParts :=
  let u0 := cleanUrl url
  let s := splitScheme u0
  let n := splitNetloc s.2
  let hf := splitHash n.2
  let pq := splitQmark hf.1
  let pp := splitParams pq.1
  ⟨s.1, n.1, pp.1, pp.2, pq.2, hf.2⟩

/-- The `uses_netloc` scheme list of CPython 3.11 `urllib.parse`. -/
def uses_netloc : List (List Char) :=
  ["", "ftp", "http", "gopher", "nntp", "telnet", "imap", "wais", "file", "mms",
   "https", "shttp", "snews", "prospero", "rtsp", "rtsps", "rtspu", "rsync", "svn",
   "svn+ssh", "sftp", "nfs", "git", "git+ssh", "ws", "wss"].map String.data

/-- CPython 3.11 `urlunsplit`. -/
def urlunsplit (scheme netloc url query fragment : List Char) : List Char :=
  let u1 :=
    if netloc ≠ [] ∨ (scheme ≠ [] ∧ scheme ∈ uses_netloc ∧ url.take 2 ≠ ['/', '/']) then
      '/' :: '/' :: (netloc ++ (if url ≠ [] ∧ url.take 1 ≠ ['/'] then '/' :: url else url))
    else url
  let u2 := if scheme ≠ [] then scheme ++ ':' :: u1 else u1
  let u3 := if query ≠ [] then u2 ++ '?' :: query else u2
  if fragment ≠ [] then u3 ++ '#' :: fragment else u3

/-- CPython `urlunparse`: rejoin path and params, then `urlunsplit`. -/
def urlunparse (scheme netloc path params query fragment : List Char) : List Char :=
  urlunsplit scheme netloc (if params ≠ [] then path ++ ';' :: params else path) query fragment

/-- The masked query string built inside `mask_query_string`
(`urlencode(query_params, doseq=True)` after the masking loop). -/
def masked_query (url : List Char) (masked_keys : List (List Char)) : List Char :=
  urlencode (maskParams masked_keys (parse_qs (urlparse url).query))

/-- Source `mask_query_string(url, masked_keys)`: parse the URL, mask the
sensitive query parameters, re-encode the query and reassemble. -/
def mask_query_string (url : String) (masked_keys : List String) : String :=
  let p := urlparse url.data
  String.mk (urlunparse p.scheme p.netloc p.path p.params
    (masked_query url.data (masked_keys.map String.data)) p.fragment)

/-! ## The JSON data model

Documents are the in-memory tree produced by `json.loads`: mappings keep
insertion order and have distinct keys.  Python's in-place mutation is
modelled by functional update, `KeyError`/`TypeError` by an error monad.
(`in`, iteration, and indexing applied to a value of the wrong shape are
uniformly modelled as `TypeError`; in CPython a few such probes on
strings or lists would succeed and fail slightly later, but every such
document still fails, with the same `KeyError`-vs-`TypeError` class, so
no claim distinguishes the two.) -/

/-- JSON values. -/
inductive Json where
  | null : Json
  | bool : Bool → Json
  | num : Int → Json
  | str : String → Json
  | arr : List Json → Json
  | obj : List (String × Json) → Json

/-- Lookup in an association list (first match). -/
def alookup {α β : Type} [DecidableEq α] : List (α × β) → α → Option β
  | [], _ => none
  | e :: rest, k => if e.1 = k then some e.2 else alookup rest k

/-- Update in an association list: replace in place, else append —
exactly Python's `d[k] = v` on an insertion-ordered dict. -/
def aset {α β : Type} [DecidableEq α] : List (α × β) → α → β → List (α × β)
  | [], k, v => [(k, v)]
  | e :: rest, k, v => if e.1 = k then (e.1, v) :: rest else e :: aset rest k v

/-- Python errors distinguished by the model. -/
inductive PyErr where
  | keyError : String → PyErr
  | typeError : PyErr
deriving DecidableEq

/-- Python `obj[k]` read on a mapping. -/
def Json.getItem : Json → String → Except PyErr Json
  | .obj kvs, k =>
    match alookup kvs k with
    | some v => .ok v
    | none => .error (.keyError k)
  | _, _ => .error .typeError

/-- Python `obj[k] = v` on a mapping. -/
def Json.setItem : Json → String → Json → Except PyErr Json
  | .obj kvs, k, v => .ok (.obj (aset kvs k v))
  | _, _, _ => .error .typeError

/-- Python `k in obj` on a mapping. -/
def Json.hasKey : Json → String → Except PyErr Bool
  | .obj kvs, k => .ok (alookup kvs k).isSome
  | _, _ => .error .typeError

/-- Python iteration over a JSON sequence. -/
def Json.asArr : Json → Except PyErr (List Json)
  | .arr xs => .ok xs
  | _ => .error .typeError

/-- Effectful map over a list, propagating the first error — a Python
`for` loop whose body may raise. -/
def mapE {α β : Type} (f : α → Except PyErr β) : List α → Except PyErr (List β)
  | [] => .ok []
  | x :: xs => do
    let y ← f x
    let ys ← mapE f xs
    .ok (y :: ys)

/-! ## The sanitizer -/

/-- Source `sanitize_response(response)`. -/
def sanitize_response (response : Json) : Except PyErr Json := do
  let content ← response.getItem "content"
  let content2 ← content.setItem "text" (.str STR_REDACTED)
  let response ← response.setItem "content" content2
  response.setItem "cookies" (.arr [])

/-- Source `sanitize_initiator(initiator)`. -/
def sanitize_initiator (initiator : Json) : Except PyErr Json := do
  let hasUrl ← initiator.hasKey "url"
  if hasUrl then do
    let u ← initiator.getItem "url"
    match u with
    | .str s => initiator.setItem "url" (.str (mask_query_string s SENSITIVE_KEYS))
    | _ => .error .typeError
  else pure initiator

/-- Body of the header loop of `sanitize_request`: redact the value of a
header whose name is exactly `"Authorization"`.  (Comparing a non-string
`name` with a string is `False` in Python, not an error.) -/
def sanitize_header (header : Json) : Except PyErr Json := do
  let nm ← header.getItem "name"
  match nm with
  | .str s =>
    if s = "Authorization" then header.setItem "value" (.str STR_REDACTED) else pure header
  | _ => pure header

/-- Body of the query-string loop of `sanitize_request`: redact the value
of an entry whose name is in `SENSITIVE_KEYS`. -/
def sanitize_qs_entry (q : Json) : Except PyErr Json := do
  let nm ← q.getItem "name"
  match nm with
  | .str s =>
    if s ∈ SENSITIVE_KEYS then q.setItem "value" (.str STR_REDACTED) else pure q
  | _ => pure q

/-- Tail of `sanitize_request` after the `postData` conditional: empty
the cookies, redact the headers and query-string entries, mask the URL. -/
def sanitize_request_rest (request : Json) : Except PyErr Json := do
  let request ← request.setItem "cookies" (.arr [])
  let headersJ ← request.getItem "headers"
  let headers ← headersJ.asArr
  let headers2 ← mapE sanitize_header headers
  let request ← request.setItem "headers" (.arr headers2)
  let qsJ ← request.getItem "queryString"
  let qsl ← qsJ.asArr
  let qsl2 ← mapE sanitize_qs_entry qsl
  let request ← request.setItem "queryString" (.arr qsl2)
  let urlJ ← request.getItem "url"
  match urlJ with
  | .str u => request.setItem "url" (.str (mask_query_string u SENSITIVE_KEYS))
  | _ => .error .typeError

/-- Source `sanitize_request(request)`: the `postData` conditional,
followed by `sanitize_request_rest`. -/
def sanitize_request (request : Json) : Except PyErr Json := do
  let hasPD ← request.hasKey "postData"
  let request ←
    if hasPD then do
      let pd ← request.getItem "postData"
      let pd2 ← pd.setItem "text" (.str STR_REDACTED)
      request.setItem "postData" pd2
    else pure request
  sanitize_request_rest request

/-- Body of the entry loop of `sanitize_har_object`.  Note the guard of
the source: the initiator branch runs only when `_initiator` is NOT yet a
key of the entry — and then immediately reads `entry["_initiator"]`,
which necessarily raises `KeyError("_initiator")`. -/
def sanitize_entry (entry : Json) : Except PyErr Json := do
  let hasInit ← entry.hasKey "_initiator"
  let entry ←
    if hasInit then pure entry
    else do
      let ini ← entry.getItem "_initiator"
      let ini2 ← sanitize_initiator ini
      entry.setItem "_initiator" ini2
  let req ← entry.getItem "request"
  let req2 ← sanitize_request req
  let entry ← entry.setItem "request" req2
  let resp ← entry.getItem "response"
  let resp2 ← sanitize_response resp
  entry.setItem "response" resp2

/-- Source `sanitize_har_object(data)`. -/
def sanitize_har_object (data : Json) : Except PyErr Json := do
  let log ← data.getItem "log"
  let entriesJ ← log.getItem "entries"
  let entries ← entriesJ.asArr
  let entries2 ← mapE sanitize_entry entries
  let log2 ← log.setItem "entries" (.arr entries2)
  data.setItem "log" log2

/-- The entry list of a document, used to state document-level claims. -/
def docEntries (d : Json) : Except PyErr (List Json) := do
  (← (← d.getItem "log").getItem "entries").asArr

/-- Pure form of the header redaction applied to one header object whose
`name` key is present (the success case of `sanitize_header`). -/
def redactHeaderPure (h : Json) : Json :=
  match h with
  | .obj kvs =>
    match alookup kvs "name" with
    | some (.str s) =>
      if s = "Authorization" then .obj (aset kvs "value" (.str STR_REDACTED)) else h
    | _ => h
  | _ => h

/-- Pure form of the query-string-entry redaction (the success case of
`sanitize_qs_entry`). -/
def redactQsPure (q : Json) : Json :=
  match q with
  | .obj kvs =>
    match alookup kvs "name" with
    | some (.str s) =>
      if s ∈ SENSITIVE_KEYS then .obj (aset kvs "value" (.str STR_REDACTED)) else q
    | _ => q
  | _ => q

/-! ## Basic lemmas about the error monad and association lists -/

theorem pure_eq_ok {α : Type} (a : α) : (pure a : Except PyErr α) = .ok a := rfl

@[simp] theorem ok_bind {α β : Type} (a : α) (f : α → Except PyErr β) :
    (Except.ok a >>= f) = f a := rfl

@[simp] theorem error_bind {α β : Type} (e : PyErr) (f : α → Except PyErr β) :
    ((Except.error e : Except PyErr α) >>= f) = .error e := rfl

theorem bind_eq_ok {α β : Type} {x : Except PyErr α} {f : α → Except PyErr β} {b : β} :
    (x >>= f) = .ok b ↔ ∃ a, x = .ok a ∧ f a = .ok b := by
  cases x with
  | ok a => simp
  | error e => simp

theorem alookup_aset_self {β : Type} (l : List (String × β)) (k : String) (v : β) :
    alookup (aset l k v) k = some v := by
  induction l with
  | nil => simp [alookup, aset]
  | cons e rest ih =>
    by_cases h : e.1 = k
    · simp [alookup, aset, h]
    · simp [alookup, aset, h, ih]

theorem alookup_aset_ne {β : Type} (l : List (String × β)) (k j : String) (v : β)
    (hne : j ≠ k) : alookup (aset l k v) j = alookup l j := by
  induction l with
  | nil => simp [alookup, aset, hne.symm]
  | cons e rest ih =>
    by_cases h : e.1 = k
    · simp [alookup, aset, h, hne.symm]
    · simp [alookup, aset, h, ih]

theorem aset_aset_same {β : Type} (l : List (String × β)) (k : String) (v w : β) :
    aset (aset l k v) k w = aset l k w := by
  induction l with
  | nil => simp [aset]
  | cons e rest ih =>
    by_cases h : e.1 = k
    · simp [aset, h]
    · simp [aset, h, ih]

theorem aset_eq_of_alookup {β : Type} (l : List (String × β)) (k : String) (v : β)
    (h : alookup l k = some v) : aset l k v = l := by
  induction l with
  | nil => simp [alookup] at h
  | cons e rest ih =>
    match e with
    | (a, b) =>
      by_cases he : a = k
      · simp only [alookup, he, if_pos, Option.some.injEq] at h
        simp [aset, he, h]
      · simp only [alookup, he, if_neg, not_false_iff] at h
        simp [aset, he, ih h]

/-! ## Lemmas about `mapE` -/

theorem mapE_length {α β : Type} {f : α → Except PyErr β} :
    ∀ {xs : List α} {ys : List β}, mapE f xs = .ok ys → ys.length = xs.length := by
  intro xs
  induction xs with
  | nil =>
    intro ys h
    simp only [mapE, Except.ok.injEq] at h
    subst h
    simp
  | cons x rest ih =>
    intro ys h
    simp only [mapE] at h
    rw [bind_eq_ok] at h
    obtain ⟨y, hy, h⟩ := h
    rw [bind_eq_ok] at h
    obtain ⟨ys2, hys2, h⟩ := h
    cases h
    simp [ih hys2]

theorem mapE_get {α β : Type} {f : α → Except PyErr β} :
    ∀ {xs : List α} {ys : List β}, mapE f xs = .ok ys →
      ∀ i (h1 : i < xs.length) (h2 : i < ys.length),
        f (xs.get ⟨i, h1⟩) = .ok (ys.get ⟨i, h2⟩) := by
  intro xs
  induction xs with
  | nil =>
    intro ys h i h1 h2
    exact absurd h1 (by simp)
  | cons x rest ih =>
    intro ys h i h1 h2
    simp only [mapE] at h
    rw [bind_eq_ok] at h
    obtain ⟨y, hy, h⟩ := h
    rw [bind_eq_ok] at h
    obtain ⟨ys2, hys2, h⟩ := h
    cases h
    match i with
    | 0 => simpa using hy
    | Nat.succ j =>
      have hj1 : j < rest.length := by simpa using h1
      have hj2 : j < ys2.length := by simpa using h2
      simpa using ih hys2 j hj1 hj2

theorem mapE_of_pointwise {α : Type} {f : α → Except PyErr α} :
    ∀ {xs ys : List α}, mapE f xs = .ok ys →
      (∀ y ∈ ys, f y = .ok y) → mapE f ys = .ok ys := by
  intro xs
  induction xs with
  | nil =>
    intro ys h hpt
    simp only [mapE, Except.ok.injEq] at h
    subst h
    simp [mapE]
  | cons x rest ih =>
    intro ys h hpt
    simp only [mapE] at h
    rw [bind_eq_ok] at h
    obtain ⟨y, hy, h⟩ := h
    rw [bind_eq_ok] at h
    obtain ⟨ys2, hys2, h⟩ := h
    cases h
    have h1 : f y = .ok y := hpt y (by simp)
    have h2 : mapE f ys2 = .ok ys2 := ih hys2 (fun z hz => hpt z (by simp [hz]))
    simp [mapE, h1, h2]

theorem mapE_map_eq {α β : Type} {f : α → Except PyErr β} {g : α → β} :
    ∀ {xs : List α} {ys : List β}, mapE f xs = .ok ys →
      (∀ x ∈ xs, ∀ y, f x = .ok y → y = g x) → ys = xs.map g := by
  intro xs
  induction xs with
  | nil =>
    intro ys h hpt
    simp only [mapE, Except.ok.injEq] at h
    subst h
    simp
  | cons x rest ih =>
    intro ys h hpt
    simp only [mapE] at h
    rw [bind_eq_ok] at h
    obtain ⟨y, hy, h⟩ := h
    rw [bind_eq_ok] at h
    obtain ⟨ys2, hys2, h⟩ := h
    cases h
    have h1 : y = g x := hpt x (by simp) y hy
    have h2 : ys2 = rest.map g := ih hys2 (fun z hz w hw => hpt z (by simp [hz]) w hw)
    simp [h1, h2]

theorem mapE_append_error {α β : Type} {f : α → Except PyErr β} {l1 : List β} {err : PyErr} :
    ∀ {es1 : List α} {e : α} (es2 : List α), mapE f es1 = .ok l1 → f e = .error err →
      mapE f (es1 ++ e :: es2) = .error err := by
  intro es1
  induction es1 generalizing l1 with
  | nil =>
    intro e es2 h1 h2
    simp [mapE, h2]
  | cons x rest ih =>
    intro e es2 h1 h2
    simp only [mapE] at h1
    rw [bind_eq_ok] at h1
    obtain ⟨y, hy, h1⟩ := h1
    rw [bind_eq_ok] at h1
    obtain ⟨ys2, hys2, h1⟩ := h1
    simp [mapE, hy, ih es2 hys2 h2]

/-! ## Inversion lemmas for the primitive JSON operations -/

theorem getItem_ok {j : Json} {k : String} {v : Json} (h : j.getItem k = .ok v) :
    ∃ kvs, j = .obj kvs ∧ alookup kvs k = some v := by
  cases j with
  | obj kvs =>
    refine ⟨kvs, rfl, ?_⟩
    simp only [Json.getItem] at h
    cases hl : alookup kvs k with
    | none => simp [hl] at h
    | some w =>
      simp only [hl, Except.ok.injEq] at h
      simp [h]
  | null => simp [Json.getItem] at h
  | bool b => simp [Json.getItem] at h
  | num n => simp [Json.getItem] at h
  | str s => simp [Json.getItem] at h
  | arr xs => simp [Json.getItem] at h

theorem hasKey_ok {j : Json} {k : String} {b : Bool} (h : j.hasKey k = .ok b) :
    ∃ kvs, j = .obj kvs ∧ (alookup kvs k).isSome = b := by
  cases j with
  | obj kvs =>
    refine ⟨kvs, rfl, ?_⟩
    simp only [Json.hasKey, Except.ok.injEq] at h
    simp [h]
  | null => simp [Json.hasKey] at h
  | bool b2 => simp [Json.hasKey] at h
  | num n => simp [Json.hasKey] at h
  | str s => simp [Json.hasKey] at h
  | arr xs => simp [Json.hasKey] at h

theorem asArr_ok {j : Json} {xs : List Json} (h : j.asArr = .ok xs) : j = .arr xs := by
  cases j with
  | arr ys =>
    simp only [Json.asArr, Except.ok.injEq] at h
    simp [h]
  | null => simp [Json.asArr] at h
  | bool b => simp [Json.asArr] at h
  | num n => simp [Json.asArr] at h
  | str s => simp [Json.asArr] at h
  | obj kvs => simp [Json.asArr] at h

theorem setItem_ok {j j2 v : Json} {k : String} (h : j.setItem k v = .ok j2) :
    ∃ kvs, j = .obj kvs ∧ j2 = .obj (aset kvs k v) := by
  cases j with
  | obj kvs =>
    simp only [Json.setItem, Except.ok.injEq] at h
    exact ⟨kvs, rfl, h.symm⟩
  | null => simp [Json.setItem] at h
  | bool b => simp [Json.setItem] at h
  | num n => simp [Json.setItem] at h
  | str s => simp [Json.setItem] at h
  | arr xs => simp [Json.setItem] at h

theorem obj_getItem (kvs : List (String × Json)) (k : String) :
    (Json.obj kvs).getItem k =
      (match alookup kvs k with
       | some v => .ok v
       | none => .error (.keyError k)) := rfl

theorem obj_setItem (kvs : List (String × Json)) (k : String) (v : Json) :
    (Json.obj kvs).setItem k v = .ok (.obj (aset kvs k v)) := rfl

theorem obj_hasKey (kvs : List (String × Json)) (k : String) :
    (Json.obj kvs).hasKey k = .ok (alookup kvs k).isSome := rfl

/-! ## Inversion and idempotence lemmas for the sanitizer components -/

theorem sanitize_response_ok {resp resp2 : Json} (h : sanitize_response resp = .ok resp2) :
    ∃ kvs ckvs, resp = .obj kvs ∧ alookup kvs "content" = some (.obj ckvs) ∧
      resp2 = .obj (aset (aset kvs "content" (.obj (aset ckvs "text" (.str STR_REDACTED))))
        "cookies" (.arr [])) := by
  simp only [sanitize_response] at h
  rw [bind_eq_ok] at h
  obtain ⟨content, hc, h⟩ := h
  rw [bind_eq_ok] at h
  obtain ⟨content2, hc2, h⟩ := h
  rw [bind_eq_ok] at h
  obtain ⟨resp1, hr1, h⟩ := h
  obtain ⟨kvs, hkvs, hlook⟩ := getItem_ok hc
  subst hkvs
  obtain ⟨ckvs, hckvs, hcontent2⟩ := setItem_ok hc2
  subst hckvs
  subst hcontent2
  obtain ⟨kvs2, hkvs2, hresp1⟩ := setItem_ok hr1
  injection hkvs2 with hk2
  subst hk2
  subst hresp1
  obtain ⟨kvs3, hkvs3, hresp2⟩ := setItem_ok h
  injection hkvs3 with hk3
  subst hk3
  subst hresp2
  exact ⟨kvs, ckvs, rfl, hlook, rfl⟩

theorem sanitize_response_idem {resp resp2 : Json} (h : sanitize_response resp = .ok resp2) :
    sanitize_response resp2 = .ok resp2 := by
  obtain ⟨kvs, ckvs, hkvs, hlook, hresp2⟩ := sanitize_response_ok h
  subst hkvs
  subst hresp2
  have h1 : alookup (aset (aset kvs "content"
      (Json.obj (aset ckvs "text" (.str STR_REDACTED)))) "cookies" (Json.arr [])) "content"
      = some (.obj (aset ckvs "text" (.str STR_REDACTED))) := by
    rw [alookup_aset_ne _ _ _ _ (by decide)]
    exact alookup_aset_self kvs "content" _
  simp only [sanitize_response, obj_getItem, h1, ok_bind, obj_setItem,
    aset_aset_same]
  rw [aset_eq_of_alookup _ "content" _ h1]
  rw [aset_aset_same]

theorem sanitize_header_ok {h h2 : Json} (hok : sanitize_header h = .ok h2) :
    h2 = redactHeaderPure h ∧ ∃ kvs nm, h = .obj kvs ∧ alookup kvs "name" = some nm := by
  simp only [sanitize_header] at hok
  rw [bind_eq_ok] at hok
  obtain ⟨nm, hnm, hok⟩ := hok
  obtain ⟨kvs, hkvs, hlook⟩ := getItem_ok hnm
  subst hkvs
  refine ⟨?_, kvs, nm, rfl, hlook⟩
  cases nm with
  | str s =>
    by_cases hs : s = "Authorization"
    · simp only [hs, if_pos] at hok
      obtain ⟨kvs2, hkvs2, hh2⟩ := setItem_ok hok
      injection hkvs2 with hk2
      subst hk2
      simp [redactHeaderPure, hlook, hs, hh2]
    · simp only [hs, if_neg, not_false_iff, pure_eq_ok, Except.ok.injEq] at hok
      simp [redactHeaderPure, hlook, hs, ← hok]
  | null =>
    simp only [pure_eq_ok, Except.ok.injEq] at hok
    simp [redactHeaderPure, hlook, ← hok]
  | bool b =>
    simp only [pure_eq_ok, Except.ok.injEq] at hok
    simp [redactHeaderPure, hlook, ← hok]
  | num n =>
    simp only [pure_eq_ok, Except.ok.injEq] at hok
    simp [redactHeaderPure, hlook, ← hok]
  | arr xs =>
    simp only [pure_eq_ok, Except.ok.injEq] at hok
    simp [redactHeaderPure, hlook, ← hok]
  | obj o =>
    simp only [pure_eq_ok, Except.ok.injEq] at hok
    simp [redactHeaderPure, hlook, ← hok]

theorem sanitize_header_idem {h h2 : Json} (hok : sanitize_header h = .ok h2) :
    sanitize_header h2 = .ok h2 := by
  obtain ⟨hh2, kvs, nm, hkvs, hlook⟩ := sanitize_header_ok hok
  subst hkvs
  subst hh2
  cases nm with
  | str s =>
    by_cases hs : s = "Authorization"
    · have hl2 : alookup (aset kvs "value" (Json.str STR_REDACTED)) "name" = some (.str s) := by
        rw [alookup_aset_ne _ _ _ _ (by decide)]
        exact hlook
      simp [redactHeaderPure, sanitize_header, hlook, hs, obj_getItem, hl2, obj_setItem,
        aset_aset_same]
    · simp [redactHeaderPure, sanitize_header, hlook, hs, obj_getItem, pure_eq_ok]
  | null => simp [redactHeaderPure, sanitize_header, hlook, obj_getItem, pure_eq_ok]
  | bool b => simp [redactHeaderPure, sanitize_header, hlook, obj_getItem, pure_eq_ok]
  | num n => simp [redactHeaderPure, sanitize_header, hlook, obj_getItem, pure_eq_ok]
  | arr xs => simp [redactHeaderPure, sanitize_header, hlook, obj_getItem, pure_eq_ok]
  | obj o => simp [redactHeaderPure, sanitize_header, hlook, obj_getItem, pure_eq_ok]

theorem sanitize_qs_entry_ok {q q2 : Json} (hok : sanitize_qs_entry q = .ok q2) :
    q2 = redactQsPure q ∧ ∃ kvs nm, q = .obj kvs ∧ alookup kvs "name" = some nm := by
  simp only [sanitize_qs_entry] at hok
  rw [bind_eq_ok] at hok
  obtain ⟨nm, hnm, hok⟩ := hok
  obtain ⟨kvs, hkvs, hlook⟩ := getItem_ok hnm
  subst hkvs
  refine ⟨?_, kvs, nm, rfl, hlook⟩
  cases nm with
  | str s =>
    by_cases hs : s ∈ SENSITIVE_KEYS
    · simp only [hs, if_pos] at hok
      obtain ⟨kvs2, hkvs2, hh2⟩ := setItem_ok hok
      injection hkvs2 with hk2
      subst hk2
      simp [redactQsPure, hlook, hs, hh2]
    · simp only [hs, if_neg, not_false_iff, pure_eq_ok, Except.ok.injEq] at hok
      simp [redactQsPure, hlook, hs, ← hok]
  | null =>
    simp only [pure_eq_ok, Except.ok.injEq] at hok
    simp [redactQsPure, hlook, ← hok]
  | bool b =>
    simp only [pure_eq_ok, Except.ok.injEq] at hok
    simp [redactQsPure, hlook, ← hok]
  | num n =>
    simp only [pure_eq_ok, Except.ok.injEq] at hok
    simp [redactQsPure, hlook, ← hok]
  | arr xs =>
    simp only [pure_eq_ok, Except.ok.injEq] at hok
    simp [redactQsPure, hlook, ← hok]
  | obj o =>
    simp only [pure_eq_ok, Except.ok.injEq] at hok
    simp [redactQsPure, hlook, ← hok]

theorem mapE_mem {α β : Type} {f : α → Except PyErr β} :
    ∀ {xs : List α} {ys : List β}, mapE f xs = .ok ys → ∀ y ∈ ys, ∃ x ∈ xs, f x = .ok y := by
  intro xs
  induction xs with
  | nil =>
    intro ys h y hy
    simp only [mapE, Except.ok.injEq] at h
    subst h
    simp at hy
  | cons x rest ih =>
    intro ys h y hy
    simp only [mapE] at h
    rw [bind_eq_ok] at h
    obtain ⟨z, hz, h⟩ := h
    rw [bind_eq_ok] at h
    obtain ⟨ys2, hys2, h⟩ := h
    cases h
    rcases List.mem_cons.mp hy with hy1 | hy2
    · subst hy1
      exact ⟨x, by simp, hz⟩
    · obtain ⟨w, hw, hfw⟩ := ih hys2 y hy2
      exact ⟨w, by simp [hw], hfw⟩

theorem sanitize_qs_entry_idem {q q2 : Json} (hok : sanitize_qs_entry q = .ok q2) :
    sanitize_qs_entry q2 = .ok q2 := by
  obtain ⟨hh2, kvs, nm, hkvs, hlook⟩ := sanitize_qs_entry_ok hok
  subst hkvs
  subst hh2
  cases nm with
  | str s =>
    by_cases hs : s ∈ SENSITIVE_KEYS
    · have hl2 : alookup (aset kvs "value" (Json.str STR_REDACTED)) "name" = some (.str s) := by
        rw [alookup_aset_ne _ _ _ _ (by decide)]
        exact hlook
      simp [redactQsPure, sanitize_qs_entry, hlook, hs, obj_getItem, hl2, obj_setItem,
        aset_aset_same]
    · simp [redactQsPure, sanitize_qs_entry, hlook, hs, obj_getItem, pure_eq_ok]
  | null => simp [redactQsPure, sanitize_qs_entry, hlook, obj_getItem, pure_eq_ok]
  | bool b => simp [redactQsPure, sanitize_qs_entry, hlook, obj_getItem, pure_eq_ok]
  | num n => simp [redactQsPure, sanitize_qs_entry, hlook, obj_getItem, pure_eq_ok]
  | arr xs => simp [redactQsPure, sanitize_qs_entry, hlook, obj_getItem, pure_eq_ok]
  | obj o => simp [redactQsPure, sanitize_qs_entry, hlook, obj_getItem, pure_eq_ok]

/-- Abbreviation for the idempotence hypothesis on one URL string. -/
def maskIdem (u : String) : Prop :=
  mask_query_string (mask_query_string u SENSITIVE_KEYS) SENSITIVE_KEYS
    = mask_query_string u SENSITIVE_KEYS

theorem sanitize_request_rest_ok {req req2 : Json} (h : sanitize_request_rest req = .ok req2) :
    ∃ kvs1 hs hs2 qs qs2 u,
      req = .obj kvs1 ∧
      alookup kvs1 "headers" = some (.arr hs) ∧
      mapE sanitize_header hs = .ok hs2 ∧
      alookup kvs1 "queryString" = some (.arr qs) ∧
      mapE sanitize_qs_entry qs = .ok qs2 ∧
      alookup kvs1 "url" = some (.str u) ∧
      req2 = .obj (aset (aset (aset (aset kvs1 "cookies" (.arr [])) "headers" (.arr hs2))
        "queryString" (.arr qs2)) "url" (.str (mask_query_string u SENSITIVE_KEYS))) := by
  simp only [sanitize_request_rest] at h
  rw [bind_eq_ok] at h
  obtain ⟨r1, hr1, h⟩ := h
  obtain ⟨kvs1, hkvs1, hr1e⟩ := setItem_ok hr1
  subst hkvs1
  subst hr1e
  rw [bind_eq_ok] at h
  obtain ⟨headersJ, hhJ, h⟩ := h
  obtain ⟨kvsc, hkvsc, hlookH⟩ := getItem_ok hhJ
  injection hkvsc with hkc
  subst hkc
  rw [alookup_aset_ne _ "cookies" "headers" _ (by decide)] at hlookH
  rw [bind_eq_ok] at h
  obtain ⟨hs, hhs, h⟩ := h
  have hHJ := asArr_ok hhs
  subst hHJ
  rw [bind_eq_ok] at h
  obtain ⟨hs2, hhs2, h⟩ := h
  rw [bind_eq_ok] at h
  obtain ⟨r2, hr2, h⟩ := h
  obtain ⟨kvs2, hkvs2, hr2e⟩ := setItem_ok hr2
  injection hkvs2 with hk2
  subst hk2
  subst hr2e
  rw [bind_eq_ok] at h
  obtain ⟨qsJ, hqJ, h⟩ := h
  obtain ⟨kvsq, hkvsq, hlookQ⟩ := getItem_ok hqJ
  injection hkvsq with hkq
  subst hkq
  rw [alookup_aset_ne _ "headers" "queryString" _ (by decide),
    alookup_aset_ne _ "cookies" "queryString" _ (by decide)] at hlookQ
  rw [bind_eq_ok] at h
  obtain ⟨qs, hqs, h⟩ := h
  have hQJ := asArr_ok hqs
  subst hQJ
  rw [bind_eq_ok] at h
  obtain ⟨qs2, hqs2, h⟩ := h
  rw [bind_eq_ok] at h
  obtain ⟨r3, hr3, h⟩ := h
  obtain ⟨kvs3, hkvs3, hr3e⟩ := setItem_ok hr3
  injection hkvs3 with hk3
  subst hk3
  subst hr3e
  rw [bind_eq_ok] at h
  obtain ⟨urlJ, huJ, h⟩ := h
  obtain ⟨kvsu, hkvsu, hlookU⟩ := getItem_ok huJ
  injection hkvsu with hku
  subst hku
  rw [alookup_aset_ne _ "queryString" "url" _ (by decide),
    alookup_aset_ne _ "headers" "url" _ (by decide),
    alookup_aset_ne _ "cookies" "url" _ (by decide)] at hlookU
  cases urlJ with
  | str u =>
    obtain ⟨kvs4, hkvs4, hreq2⟩ := setItem_ok h
    injection hkvs4 with hk4
    subst hk4
    subst hreq2
    exact ⟨kvs1, hs, hs2, qs, qs2, u, rfl, hlookH, hhs2, hlookQ, hqs2, hlookU, rfl⟩
  | null => simp at h
  | bool b => simp at h
  | num n => simp at h
  | arr xs => simp at h
  | obj o => simp at h

theorem sanitize_request_rest_idem {req req2 : Json} (h : sanitize_request_rest req = .ok req2)
    (hmask : ∀ u : String, req.getItem "url" = .ok (.str u) → maskIdem u) :
    sanitize_request_rest req2 = .ok req2 := by
  obtain ⟨kvs1, hs, hs2, qs, qs2, u, hkvs, hH, hHm, hQ, hQm, hU, hreq2⟩ :=
    sanitize_request_rest_ok h
  subst hkvs
  subst hreq2
  have hm : maskIdem u := hmask u (by simp [obj_getItem, hU])
  have l1 : alookup (aset (aset (aset (aset kvs1 "cookies" (.arr [])) "headers" (.arr hs2))
      "queryString" (.arr qs2)) "url" (.str (mask_query_string u SENSITIVE_KEYS))) "cookies"
      = some (.arr []) := by
    rw [alookup_aset_ne _ "url" "cookies" _ (by decide),
      alookup_aset_ne _ "queryString" "cookies" _ (by decide),
      alookup_aset_ne _ "headers" "cookies" _ (by decide), alookup_aset_self]
  have l2 : alookup (aset (aset (aset (aset kvs1 "cookies" (.arr [])) "headers" (.arr hs2))
      "queryString" (.arr qs2)) "url" (.str (mask_query_string u SENSITIVE_KEYS))) "headers"
      = some (.arr hs2) := by
    rw [alookup_aset_ne _ "url" "headers" _ (by decide),
      alookup_aset_ne _ "queryString" "headers" _ (by decide), alookup_aset_self]
  have l3 : alookup (aset (aset (aset (aset kvs1 "cookies" (.arr [])) "headers" (.arr hs2))
      "queryString" (.arr qs2)) "url" (.str (mask_query_string u SENSITIVE_KEYS))) "queryString"
      = some (.arr qs2) := by
    rw [alookup_aset_ne _ "url" "queryString" _ (by decide), alookup_aset_self]
  have l4 : alookup (aset (aset (aset (aset kvs1 "cookies" (.arr [])) "headers" (.arr hs2))
      "queryString" (.arr qs2)) "url" (.str (mask_query_string u SENSITIVE_KEYS))) "url"
      = some (.str (mask_query_string u SENSITIVE_KEYS)) := alookup_aset_self _ _ _
  have hm2 : mapE sanitize_header hs2 = .ok hs2 :=
    mapE_of_pointwise hHm (fun y hy => by
      obtain ⟨x, hx, hfx⟩ := mapE_mem hHm y hy
      exact sanitize_header_idem hfx)
  have hq2 : mapE sanitize_qs_entry qs2 = .ok qs2 :=
    mapE_of_pointwise hQm (fun y hy => by
      obtain ⟨x, hx, hfx⟩ := mapE_mem hQm y hy
      exact sanitize_qs_entry_idem hfx)
  simp only [sanitize_request_rest, obj_setItem, ok_bind,
    aset_eq_of_alookup _ "cookies" (Json.arr []) l1, obj_getItem, l2, Json.asArr, hm2,
    aset_eq_of_alookup _ "headers" (Json.arr hs2) l2, l3, hq2,
    aset_eq_of_alookup _ "queryString" (Json.arr qs2) l3, l4]
  rw [hm]
  rw [aset_eq_of_alookup _ "url" _ l4]

theorem sanitize_request_ok {req req2 : Json} (h : sanitize_request req = .ok req2) :
    ∃ kvs kvs1,
      req = .obj kvs ∧
      ((alookup kvs "postData" = none ∧ kvs1 = kvs) ∨
        (∃ pdkvs, alookup kvs "postData" = some (.obj pdkvs) ∧
          kvs1 = aset kvs "postData" (.obj (aset pdkvs "text" (.str STR_REDACTED))))) ∧
      sanitize_request_rest (.obj kvs1) = .ok req2 := by
  simp only [sanitize_request] at h
  rw [bind_eq_ok] at h
  obtain ⟨hasPD, hpd, h⟩ := h
  obtain ⟨kvs, hkvs, hpds⟩ := hasKey_ok hpd
  subst hkvs
  cases hasPD with
  | false =>
    simp only [Bool.false_eq_true, if_neg, not_false_iff, pure_eq_ok, ok_bind] at h
    refine ⟨kvs, kvs, rfl, Or.inl ⟨?_, rfl⟩, h⟩
    simpa [Option.isSome_iff_exists] using hpds
  | true =>
    simp only [if_pos] at h
    rw [bind_eq_ok] at h
    obtain ⟨pd, hpd2, h⟩ := h
    rw [bind_eq_ok] at h
    obtain ⟨pd2, hpd3, h⟩ := h
    rw [bind_eq_ok] at h
    obtain ⟨req1, hreq1, h⟩ := h
    obtain ⟨kvsx, hkvsx, hlookPD⟩ := getItem_ok hpd2
    injection hkvsx with hkx
    subst hkx
    obtain ⟨pdkvs, hpdkvs, hpd2e⟩ := setItem_ok hpd3
    subst hpdkvs
    subst hpd2e
    obtain ⟨kvsy, hkvsy, hreq1e⟩ := setItem_ok hreq1
    injection hkvsy with hky
    subst hky
    subst hreq1e
    exact ⟨kvs, _, rfl, Or.inr ⟨pdkvs, hlookPD, rfl⟩, h⟩

theorem sanitize_request_idem {req req2 : Json} (h : sanitize_request req = .ok req2)
    (hmask : ∀ u : String, req.getItem "url" = .ok (.str u) → maskIdem u) :
    sanitize_request req2 = .ok req2 := by
  obtain ⟨kvs, kvs1, hkvs, hbr, hrest⟩ := sanitize_request_ok h
  subst hkvs
  obtain ⟨kvsS, hs, hs2, qs, qs2, u, hkvsS, hH, hHm, hQ, hQm, hU, hreq2⟩ :=
    sanitize_request_rest_ok hrest
  injection hkvsS with hkS
  subst hkS
  have hmask1 : ∀ v : String, (Json.obj kvs1).getItem "url" = .ok (.str v) → maskIdem v := by
    intro v hv
    apply hmask
    simp only [obj_getItem, hU, Except.ok.injEq] at hv
    have hUkvs : alookup kvs "url" = some (.str u) := by
      rcases hbr with ⟨hnone, hk1⟩ | ⟨pdkvs, hsome, hk1⟩
      · rw [← hk1]
        exact hU
      · rw [hk1] at hU
        rw [alookup_aset_ne _ "postData" "url" _ (by decide)] at hU
        exact hU
    simp [obj_getItem, hUkvs, ← hv]
  have hidem := sanitize_request_rest_idem hrest hmask1
  have hlookPD2 : alookup (aset (aset (aset (aset kvs1 "cookies" (.arr [])) "headers"
      (.arr hs2)) "queryString" (.arr qs2)) "url"
      (.str (mask_query_string u SENSITIVE_KEYS))) "postData" = alookup kvs1 "postData" := by
    rw [alookup_aset_ne _ "url" "postData" _ (by decide),
      alookup_aset_ne _ "queryString" "postData" _ (by decide),
      alookup_aset_ne _ "headers" "postData" _ (by decide),
      alookup_aset_ne _ "cookies" "postData" _ (by decide)]
  subst hreq2
  rcases hbr with ⟨hnone, hk1⟩ | ⟨pdkvs, hsome, hk1⟩
  · subst hk1
    simp only [sanitize_request, obj_hasKey, ok_bind, hlookPD2, hnone, Option.isSome_none,
      Bool.false_eq_true, if_neg, not_false_iff, pure_eq_ok]
    exact hidem
  · subst hk1
    have hlookPD3 : alookup (aset kvs "postData"
        (Json.obj (aset pdkvs "text" (.str STR_REDACTED)))) "postData"
        = some (.obj (aset pdkvs "text" (.str STR_REDACTED))) := alookup_aset_self _ _ _
    simp only [sanitize_request, obj_hasKey, ok_bind, hlookPD2, hlookPD3, Option.isSome_some,
      if_pos, obj_getItem, obj_setItem, aset_aset_same]
    rw [aset_eq_of_alookup _ "postData" _ (by rw [hlookPD2]; exact hlookPD3)]
    exact hidem

theorem sanitize_entry_ok {e e2 : Json} (h : sanitize_entry e = .ok e2) :
    ∃ ekvs req req2 resp resp2,
      e = .obj ekvs ∧ (alookup ekvs "_initiator").isSome = true ∧
      alookup ekvs "request" = some req ∧ sanitize_request req = .ok req2 ∧
      alookup ekvs "response" = some resp ∧ sanitize_response resp = .ok resp2 ∧
      e2 = .obj (aset (aset ekvs "request" req2) "response" resp2) := by
  simp only [sanitize_entry] at h
  rw [bind_eq_ok] at h
  obtain ⟨hasInit, hhi, h⟩ := h
  obtain ⟨ekvs, hekvs, hinit⟩ := hasKey_ok hhi
  subst hekvs
  cases hasInit with
  | false =>
    exfalso
    simp only [Bool.false_eq_true, if_neg, not_false_iff] at h
    rw [bind_eq_ok] at h
    obtain ⟨ini, hini, h⟩ := h
    cases hcase : alookup ekvs "_initiator" with
    | none => simp [obj_getItem, hcase] at hini
    | some v => simp [hcase] at hinit
  | true =>
    simp only [if_pos, pure_eq_ok, ok_bind] at h
    rw [bind_eq_ok] at h
    obtain ⟨req, hreq, h⟩ := h
    obtain ⟨kvsx, hkvsx, hlookR⟩ := getItem_ok hreq
    injection hkvsx with hkx
    subst hkx
    rw [bind_eq_ok] at h
    obtain ⟨req2, hreq2, h⟩ := h
    rw [bind_eq_ok] at h
    obtain ⟨e1, he1, h⟩ := h
    obtain ⟨kvsy, hkvsy, he1e⟩ := setItem_ok he1
    injection hkvsy with hky
    subst hky
    subst he1e
    rw [bind_eq_ok] at h
    obtain ⟨resp, hresp, h⟩ := h
    obtain ⟨kvsz, hkvsz, hlookResp⟩ := getItem_ok hresp
    injection hkvsz with hkz
    subst hkz
    rw [alookup_aset_ne _ "request" "response" _ (by decide)] at hlookResp
    rw [bind_eq_ok] at h
    obtain ⟨resp2, hresp2, h⟩ := h
    obtain ⟨kvsw, hkvsw, he2⟩ := setItem_ok h
    injection hkvsw with hkw
    subst hkw
    subst he2
    exact ⟨ekvs, req, req2, resp, resp2, rfl, hinit, hlookR, hreq2, hlookResp, hresp2, rfl⟩

theorem sanitize_entry_idem {e e2 : Json} (h : sanitize_entry e = .ok e2)
    (hmask : ∀ r : Json, ∀ u : String, e.getItem "request" = .ok r →
      r.getItem "url" = .ok (.str u) → maskIdem u) :
    sanitize_entry e2 = .ok e2 := by
  obtain ⟨ekvs, req, req2, resp, resp2, hekvs, hinit, hlookR, hreq2, hlookResp, hresp2, he2⟩ :=
    sanitize_entry_ok h
  subst hekvs
  subst he2
  have hreqidem : sanitize_request req2 = .ok req2 := by
    apply sanitize_request_idem hreq2
    intro u hu
    exact hmask req u (by simp [obj_getItem, hlookR]) hu
  have hrespidem : sanitize_response resp2 = .ok resp2 := sanitize_response_idem hresp2
  have li : (alookup (aset (aset ekvs "request" req2) "response" resp2) "_initiator").isSome
      = true := by
    rw [alookup_aset_ne _ "response" "_initiator" _ (by decide),
      alookup_aset_ne _ "request" "_initiator" _ (by decide)]
    exact hinit
  have lr : alookup (aset (aset ekvs "request" req2) "response" resp2) "request"
      = some req2 := by
    rw [alookup_aset_ne _ "response" "request" _ (by decide)]
    exact alookup_aset_self _ _ _
  have lp : alookup (aset (aset ekvs "request" req2) "response" resp2) "response"
      = some resp2 := alookup_aset_self _ _ _
  simp only [sanitize_entry, obj_hasKey, ok_bind, li, if_pos, pure_eq_ok, obj_getItem, lr,
    hreqidem, obj_setItem]
  rw [aset_eq_of_alookup _ "request" req2 lr]
  simp only [lp, hrespidem, ok_bind, obj_setItem]
  rw [aset_eq_of_alookup _ "response" resp2 lp]

theorem sanitize_har_object_ok {d d2 : Json} (h : sanitize_har_object d = .ok d2) :
    ∃ dkvs lkvs es es2,
      d = .obj dkvs ∧ alookup dkvs "log" = some (.obj lkvs) ∧
      alookup lkvs "entries" = some (.arr es) ∧ mapE sanitize_entry es = .ok es2 ∧
      d2 = .obj (aset dkvs "log" (.obj (aset lkvs "entries" (.arr es2)))) := by
  simp only [sanitize_har_object] at h
  rw [bind_eq_ok] at h
  obtain ⟨lg, hlg, h⟩ := h
  obtain ⟨dkvs, hdkvs, hlookL⟩ := getItem_ok hlg
  subst hdkvs
  rw [bind_eq_ok] at h
  obtain ⟨entriesJ, hentJ, h⟩ := h
  obtain ⟨lkvs, hlkvs, hlookE⟩ := getItem_ok hentJ
  subst hlkvs
  rw [bind_eq_ok] at h
  obtain ⟨es, hes, h⟩ := h
  have hEJ := asArr_ok hes
  subst hEJ
  rw [bind_eq_ok] at h
  obtain ⟨es2, hes2, h⟩ := h
  rw [bind_eq_ok] at h
  obtain ⟨lg2, hlg2, h⟩ := h
  obtain ⟨lkvs2, hlkvs2, hlg2e⟩ := setItem_ok hlg2
  injection hlkvs2 with hlk2
  subst hlk2
  subst hlg2e
  obtain ⟨dkvs2, hdkvs2, hd2⟩ := setItem_ok h
  injection hdkvs2 with hdk2
  subst hdk2
  subst hd2
  exact ⟨dkvs, lkvs, es, es2, rfl, hlookL, hlookE, hes2, rfl⟩

theorem sanitize_har_object_idem {d d2 : Json} (h : sanitize_har_object d = .ok d2)
    (hmask : ∀ es : List Json, docEntries d = .ok es → ∀ e ∈ es, ∀ r : Json, ∀ u : String,
      e.getItem "request" = .ok r → r.getItem "url" = .ok (.str u) → maskIdem u) :
    sanitize_har_object d2 = .ok d2 := by
  obtain ⟨dkvs, lkvs, es, es2, hdkvs, hlookL, hlookE, hes2, hd2⟩ := sanitize_har_object_ok h
  subst hdkvs
  subst hd2
  have hES : docEntries (.obj dkvs) = .ok es := by
    simp [docEntries, obj_getItem, hlookL, hlookE, Json.asArr]
  have hmap2 : mapE sanitize_entry es2 = .ok es2 :=
    mapE_of_pointwise hes2 (fun y hy => by
      obtain ⟨x, hx, hfx⟩ := mapE_mem hes2 y hy
      exact sanitize_entry_idem hfx (fun r u hr hu => hmask es hES x hx r u hr hu))
  have lL : alookup (aset dkvs "log" (.obj (aset lkvs "entries" (.arr es2)))) "log"
      = some (.obj (aset lkvs "entries" (.arr es2))) := alookup_aset_self _ _ _
  have lE : alookup (aset lkvs "entries" (.arr es2)) "entries" = some (.arr es2) :=
    alookup_aset_self _ _ _
  simp only [sanitize_har_object, obj_getItem, lL, ok_bind, lE, Json.asArr, hmap2,
    obj_setItem, aset_aset_same]

/-! ## Concrete documents used as test inputs and witnesses -/

/-- An entry with every key required by the redaction rules (request with
`url`, `headers`, `cookies`, `queryString`; response with `content` and
`cookies`) but with neither `postData` nor `_initiator`. -/
def entryNoOptionals : Json := .obj [
  ("request", .obj [
    ("url", .str "https://svc/path?X-Amz-Credential=abc"),
    ("headers", .arr [.obj [("name", .str "Accept"), ("value", .str "*")]]),
    ("cookies", .arr []),
    ("queryString", .arr [.obj [("name", .str "ok"), ("value", .str "1")]])]),
  ("response", .obj [("content", .obj [("text", .str "body")]), ("cookies", .arr [])])]

/-- A document whose only entry is `entryNoOptionals`. -/
def docNoOptionals : Json := .obj [("log", .obj [("entries", .arr [entryNoOptionals])])]

/-- The request object of `docFull`. -/
def docFullReq : Json := .obj [
  ("method", .str "GET"),
  ("url", .str "https://svc/path?X-Amz-Credential=abc&ok=1"),
  ("headers", .arr [
    .obj [("name", .str "Authorization"), ("value", .str "Bearer xyz")],
    .obj [("name", .str "authorization"), ("value", .str "keep")],
    .obj [("name", .str "Accept"), ("value", .str "*")]]),
  ("cookies", .arr [.obj [("name", .str "sid"), ("value", .str "s")]]),
  ("queryString", .arr [
    .obj [("name", .str "X-Amz-Credential"), ("value", .str "abc")],
    .obj [("name", .str "ok"), ("value", .str "1")]]),
  ("postData", .obj [("mimeType", .str "text/plain"), ("text", .str "password=hunter2")])]

/-- The single entry of `docFull`. -/
def docFull0 : Json := .obj [
  ("_initiator", .obj [("url", .str "https://ini/x?X-Amz-Signature=sig"), ("type", .str "script")]),
  ("request", docFullReq),
  ("response", .obj [
    ("status", .num 200),
    ("content", .obj [("size", .num 11), ("text", .str "secret body")]),
    ("cookies", .arr [.obj [("name", .str "c")]])]),
  ("extraKey", .arr [.num 1, .bool true, .null])]

/-- A well-formed document with `_initiator` present: one entry whose
request URL carries a sensitive parameter and whose initiator URL does
too. -/
def docFull : Json :=
  .obj [("log", .obj [("version", .str "1.2"), ("entries", .arr [docFull0])])]

/-- The sanitized form of `docFullReq` (the expected output). -/
def docFullReqOut : Json := .obj [
  ("method", .str "GET"),
  ("url", .str "https://svc/path?X-Amz-Credential=REDACTED&ok=1"),
  ("headers", .arr [
    .obj [("name", .str "Authorization"), ("value", .str "REDACTED")],
    .obj [("name", .str "authorization"), ("value", .str "keep")],
    .obj [("name", .str "Accept"), ("value", .str "*")]]),
  ("cookies", .arr []),
  ("queryString", .arr [
    .obj [("name", .str "X-Amz-Credential"), ("value", .str "REDACTED")],
    .obj [("name", .str "ok"), ("value", .str "1")]]),
  ("postData", .obj [("mimeType", .str "text/plain"), ("text", .str "REDACTED")])]

/-- The sanitized form of `docFull0` (the expected output). -/
def docFullOut0 : Json := .obj [
  ("_initiator", .obj [("url", .str "https://ini/x?X-Amz-Signature=sig"), ("type", .str "script")]),
  ("request", docFullReqOut),
  ("response", .obj [
    ("status", .num 200),
    ("content", .obj [("size", .num 11), ("text", .str "REDACTED")]),
    ("cookies", .arr [])]),
  ("extraKey", .arr [.num 1, .bool true, .null])]

/-- The sanitized form of `docFull` (the expected output). -/
def docFullOut : Json :=
  .obj [("log", .obj [("version", .str "1.2"), ("entries", .arr [docFullOut0])])]

/-- A document whose only entry has the request URL `mailto:////`. -/
def docMailto : Json := .obj [("log", .obj [("entries", .arr [.obj [
  ("_initiator", .obj []),
  ("request", .obj [
    ("url", .str "mailto:////"),
    ("headers", .arr []),
    ("cookies", .arr []),
    ("queryString", .arr [])]),
  ("response", .obj [("content", .obj [("text", .str "b")]), ("cookies", .arr [])])]])])]

/-- The result of sanitizing `docMailto` once: the URL collapsed to
`mailto://`. -/
def docMailto1 : Json := .obj [("log", .obj [("entries", .arr [.obj [
  ("_initiator", .obj []),
  ("request", .obj [
    ("url", .str "mailto://"),
    ("headers", .arr []),
    ("cookies", .arr []),
    ("queryString", .arr [])]),
  ("response", .obj [("content", .obj [("text", .str STR_REDACTED)]), ("cookies", .arr [])])]])])]

/-- Projection used to tell two sanitizer results apart: the `url` of the
first entry's request, when it exists and is a string. -/
def firstRequestUrl (x : Except PyErr Json) : Option String :=
  match x with
  | .ok d =>
    match docEntries d with
    | .ok (e :: _) =>
      match e.getItem "request" with
      | .ok r =>
        match r.getItem "url" with
        | .ok (.str u) => some u
        | _ => none
      | _ => none
    | _ => none
  | _ => none

/-! ## Claim theorems -/

/-- C2.  The claim says an entry lacking both optional keys (`postData`,
`_initiator`) sanitizes successfully.  The code instead always raises
`KeyError("_initiator")` for such an entry: the guard
`if "_initiator" not in entry:` is immediately followed by a read of
`entry["_initiator"]`, which cannot succeed in the branch where the key
is absent.  This theorem evaluates the code at the failing input: an
entry with all required keys, no `postData` and no `_initiator`. -/
theorem C2_missing_optionals_raise_key_error :
    (entryNoOptionals.getItem "request").bind (fun r => r.hasKey "postData") = .ok false ∧
    entryNoOptionals.hasKey "_initiator" = .ok false ∧
    sanitize_har_object docNoOptionals = .error (.keyError "_initiator") :=
  ⟨rfl, rfl, rfl⟩

/-- C10.  `mask_query_string` is not the identity on URLs without
sensitive parameters: re-encoding drops query parameters with an empty
raw value (`foo=`) and normalizes percent-escapes (`%61` becomes `a`),
so some sensitive-free input URL is changed. -/
theorem C10_mask_not_identity :
    mask_query_string "http://x/p?foo=&bar=1" SENSITIVE_KEYS = "http://x/p?bar=1" ∧
    mask_query_string "http://x/p?a=%61" SENSITIVE_KEYS = "http://x/p?a=a" ∧
    (∀ k ∈ SENSITIVE_KEYS,
      alookup (parse_qs (urlparse "http://x/p?foo=&bar=1".data).query) k.data = none) ∧
    mask_query_string "http://x/p?foo=&bar=1" SENSITIVE_KEYS ≠ "http://x/p?foo=&bar=1" := by
  refine ⟨rfl, rfl, by decide, by decide⟩

/-- C3, counterexample.  Sanitization is not idempotent: on `docMailto`
(request URL `mailto:////`) one pass yields `docMailto1` (URL
`mailto://`), but sanitizing `docMailto1` changes the URL again (to
`mailto:`), so `sanitize(sanitize(d))` differs from `sanitize(d)`. -/
theorem C3_not_idempotent :
    sanitize_har_object docMailto = .ok docMailto1 ∧
    sanitize_har_object docMailto1 ≠ .ok docMailto1 := by
  refine ⟨rfl, ?_⟩
  intro h
  have h2 := congrArg firstRequestUrl h
  rw [show firstRequestUrl (sanitize_har_object docMailto1) = some "mailto:" from rfl] at h2
  rw [show firstRequestUrl (Except.ok docMailto1) = some "mailto://" from rfl] at h2
  exact absurd (Option.some.inj h2) (by decide)

/-- C3, amended.  Sanitization is idempotent on every document it
succeeds on whose request URLs are themselves idempotent under
`mask_query_string` (all other redactions write fixed points; the
counterexample shows the URL-masking step is the only source of
non-idempotence). -/
theorem C3_idempotent_of_mask_idem {d d1 : Json}
    (h : sanitize_har_object d = .ok d1)
    (hmask : ∀ es : List Json, docEntries d = .ok es → ∀ e ∈ es, ∀ r : Json, ∀ u : String,
      e.getItem "request" = .ok r → r.getItem "url" = .ok (.str u) → maskIdem u) :
    sanitize_har_object d1 = .ok d1 :=
  sanitize_har_object_idem h hmask

/-- C3, witness for the amended theorem: on the concrete `docFull` the
hypotheses hold and sanitization is idempotent. -/
theorem C3_witness :
    sanitize_har_object docFull = .ok docFullOut ∧
    sanitize_har_object docFullOut = .ok docFullOut := by
  refine ⟨rfl, ?_⟩
  apply @C3_idempotent_of_mask_idem docFull docFullOut rfl
  intro es hes e he r u hr hu
  have hes2 : es = [docFull0] := by
    rw [show docEntries docFull = .ok [docFull0] from rfl] at hes
    exact (Except.ok.inj hes).symm
  subst hes2
  rw [List.mem_singleton] at he
  subst he
  rw [show docFull0.getItem "request" = .ok docFullReq from rfl] at hr
  have hr2 := (Except.ok.inj hr).symm
  subst hr2
  rw [show docFullReq.getItem "url"
    = .ok (.str "https://svc/path?X-Amz-Credential=abc&ok=1") from rfl] at hu
  have hu2 := Json.str.inj (Except.ok.inj hu)
  subst hu2
  rfl

/-- Inversion for `docEntries`: a successful read pins down the document
and log shapes. -/
theorem docEntries_ok {d : Json} {es : List Json} (h : docEntries d = .ok es) :
    ∃ dkvs lkvs, d = .obj dkvs ∧ alookup dkvs "log" = some (.obj lkvs) ∧
      alookup lkvs "entries" = some (.arr es) := by
  simp only [docEntries] at h
  rw [bind_eq_ok] at h
  obtain ⟨lg, hlg, h⟩ := h
  rw [bind_eq_ok] at h
  obtain ⟨entJ, hentJ, h⟩ := h
  obtain ⟨dkvs, hdkvs, hlookL⟩ := getItem_ok hlg
  subst hdkvs
  obtain ⟨lkvs, hlkvs, hlookE⟩ := getItem_ok hentJ
  subst hlkvs
  have hent := asArr_ok h
  subst hent
  exact ⟨dkvs, lkvs, rfl, hlookL, hlookE⟩

/-- Computation of `docEntries` on the output shape of the sanitizer. -/
theorem docEntries_sanitized (dkvs lkvs : List (String × Json)) (es2 : List Json) :
    docEntries (.obj (aset dkvs "log" (.obj (aset lkvs "entries" (.arr es2))))) = .ok es2 := by
  simp [docEntries, obj_getItem, alookup_aset_self, Json.asArr]

/-- An entry that fails makes the whole sanitization fail with the same
error, provided the entries before it succeed. -/
theorem sanitize_har_object_entry_error {d : Json} {es1 es2 : List Json} {e : Json}
    {err : PyErr} {l1 : List Json}
    (hes : docEntries d = .ok (es1 ++ e :: es2))
    (h1 : mapE sanitize_entry es1 = .ok l1)
    (he : sanitize_entry e = .error err) :
    sanitize_har_object d = .error err := by
  obtain ⟨dkvs, lkvs, hd, hlookL, hlookE⟩ := docEntries_ok hes
  subst hd
  have hmap := mapE_append_error es2 h1 he
  simp [sanitize_har_object, obj_getItem, hlookL, hlookE, Json.asArr, hmap]

/-- An entry without `request` fails with a key lookup error (on
`_initiator` when that key is also absent, else on `request`). -/
theorem sanitize_entry_no_request {ekvs : List (String × Json)}
    (h : alookup ekvs "request" = none) :
    ∃ k, sanitize_entry (.obj ekvs) = .error (.keyError k) := by
  cases hini : alookup ekvs "_initiator" with
  | none =>
    exact ⟨"_initiator", by simp [sanitize_entry, obj_hasKey, hini, obj_getItem]⟩
  | some v =>
    exact ⟨"request", by simp [sanitize_entry, obj_hasKey, hini, obj_getItem, h]⟩

/-- A failing request sanitization propagates out of the entry. -/
theorem sanitize_entry_request_error {ekvs : List (String × Json)} {req : Json} {err : PyErr}
    (hini : (alookup ekvs "_initiator").isSome = true)
    (hreq : alookup ekvs "request" = some req)
    (herr : sanitize_request req = .error err) :
    sanitize_entry (.obj ekvs) = .error err := by
  simp [sanitize_entry, obj_hasKey, hini, obj_getItem, hreq, herr]

/-- An entry without `response` fails with `KeyError("response")` once
its request sanitizes. -/
theorem sanitize_entry_no_response {ekvs : List (String × Json)} {req req2 : Json}
    (hini : (alookup ekvs "_initiator").isSome = true)
    (hreq : alookup ekvs "request" = some req)
    (hok : sanitize_request req = .ok req2)
    (hresp : alookup ekvs "response" = none) :
    sanitize_entry (.obj ekvs) = .error (.keyError "response") := by
  have h2 : alookup (aset ekvs "request" req2) "response" = none := by
    rw [alookup_aset_ne _ "request" "response" _ (by decide)]
    exact hresp
  simp [sanitize_entry, obj_hasKey, hini, obj_getItem, hreq, hok, obj_setItem, h2]

/-- A failing response sanitization propagates out of the entry. -/
theorem sanitize_entry_response_error {ekvs : List (String × Json)} {req req2 resp : Json}
    {err : PyErr}
    (hini : (alookup ekvs "_initiator").isSome = true)
    (hreq : alookup ekvs "request" = some req)
    (hok : sanitize_request req = .ok req2)
    (hresp : alookup ekvs "response" = some resp)
    (herr : sanitize_response resp = .error err) :
    sanitize_entry (.obj ekvs) = .error err := by
  have h2 : alookup (aset ekvs "request" req2) "response" = some resp := by
    rw [alookup_aset_ne _ "request" "response" _ (by decide)]
    exact hresp
  simp [sanitize_entry, obj_hasKey, hini, obj_getItem, hreq, hok, obj_setItem, h2, herr]

/-- A request without `headers` fails with `KeyError("headers")`. -/
theorem sanitize_request_no_headers {rkvs : List (String × Json)}
    (hpd : alookup rkvs "postData" = none)
    (hH : alookup rkvs "headers" = none) :
    sanitize_request (.obj rkvs) = .error (.keyError "headers") := by
  have hH2 : alookup (aset rkvs "cookies" (Json.arr [])) "headers" = none := by
    rw [alookup_aset_ne _ "cookies" "headers" _ (by decide)]
    exact hH
  simp [sanitize_request, obj_hasKey, hpd, sanitize_request_rest, obj_setItem, obj_getItem, hH2]

/-- A request without `queryString` fails with `KeyError("queryString")`. -/
theorem sanitize_request_no_queryString {rkvs : List (String × Json)} {hs hs2 : List Json}
    (hpd : alookup rkvs "postData" = none)
    (hH : alookup rkvs "headers" = some (.arr hs))
    (hHm : mapE sanitize_header hs = .ok hs2)
    (hQ : alookup rkvs "queryString" = none) :
    sanitize_request (.obj rkvs) = .error (.keyError "queryString") := by
  have hH2 : alookup (aset rkvs "cookies" (Json.arr [])) "headers" = some (.arr hs) := by
    rw [alookup_aset_ne _ "cookies" "headers" _ (by decide)]
    exact hH
  have hQ2 : alookup (aset (aset rkvs "cookies" (Json.arr [])) "headers" (.arr hs2))
      "queryString" = none := by
    rw [alookup_aset_ne _ "headers" "queryString" _ (by decide),
      alookup_aset_ne _ "cookies" "queryString" _ (by decide)]
    exact hQ
  simp [sanitize_request, obj_hasKey, hpd, sanitize_request_rest, obj_setItem, obj_getItem,
    hH2, Json.asArr, hHm, hQ2]

/-- A request without `url` fails with `KeyError("url")` (used by C9). -/
theorem sanitize_request_no_url {rkvs : List (String × Json)} {hs hs2 qs qs2 : List Json}
    (hpd : alookup rkvs "postData" = none)
    (hH : alookup rkvs "headers" = some (.arr hs))
    (hHm : mapE sanitize_header hs = .ok hs2)
    (hQ : alookup rkvs "queryString" = some (.arr qs))
    (hQm : mapE sanitize_qs_entry qs = .ok qs2)
    (hU : alookup rkvs "url" = none) :
    sanitize_request (.obj rkvs) = .error (.keyError "url") := by
  have hH2 : alookup (aset rkvs "cookies" (Json.arr [])) "headers" = some (.arr hs) := by
    rw [alookup_aset_ne _ "cookies" "headers" _ (by decide)]
    exact hH
  have hQ2 : alookup (aset (aset rkvs "cookies" (Json.arr [])) "headers" (.arr hs2))
      "queryString" = some (.arr qs) := by
    rw [alookup_aset_ne _ "headers" "queryString" _ (by decide),
      alookup_aset_ne _ "cookies" "queryString" _ (by decide)]
    exact hQ
  have hU2 : alookup (aset (aset (aset rkvs "cookies" (Json.arr [])) "headers" (.arr hs2))
      "queryString" (.arr qs2)) "url" = none := by
    rw [alookup_aset_ne _ "queryString" "url" _ (by decide),
      alookup_aset_ne _ "headers" "url" _ (by decide),
      alookup_aset_ne _ "cookies" "url" _ (by decide)]
    exact hU
  simp [sanitize_request, obj_hasKey, hpd, sanitize_request_rest, obj_setItem, obj_getItem,
    hH2, Json.asArr, hHm, hQ2, hQm, hU2]

/-- A response without `content` fails with `KeyError("content")`. -/
theorem sanitize_response_no_content {rkvs : List (String × Json)}
    (h : alookup rkvs "content" = none) :
    sanitize_response (.obj rkvs) = .error (.keyError "content") := by
  simp [sanitize_response, obj_getItem, h]

/-- C1.  When an entry already contains the `_initiator` key, sanitization
leaves that key's value (including any nested `url`) completely
unchanged: the source's guard `if "_initiator" not in entry` skips the
initiator-masking branch exactly when `_initiator` is present, and no
other step writes to that key. -/
theorem C1_existing_initiator_untouched {d d1 : Json} {es es1 : List Json}
    (h : sanitize_har_object d = .ok d1)
    (hes : docEntries d = .ok es) (hes1 : docEntries d1 = .ok es1) :
    es1.length = es.length ∧
    ∀ i (hi : i < es.length) (hi1 : i < es1.length),
      (es.get ⟨i, hi⟩).hasKey "_initiator" = .ok true →
      (es1.get ⟨i, hi1⟩).getItem "_initiator" = (es.get ⟨i, hi⟩).getItem "_initiator" := by
  obtain ⟨dkvs, lkvs, es0, es2, hd, hlookL, hlookE, hmapes, hd1⟩ := sanitize_har_object_ok h
  subst hd
  subst hd1
  rw [show docEntries (Json.obj dkvs) = .ok es0 from by
    simp [docEntries, obj_getItem, hlookL, hlookE, Json.asArr]] at hes
  have hesq := Except.ok.inj hes
  subst hesq
  rw [docEntries_sanitized] at hes1
  have hesq1 := Except.ok.inj hes1
  subst hesq1
  refine ⟨mapE_length hmapes, ?_⟩
  intro i hi hi1 _hhask
  have hse := mapE_get hmapes i hi hi1
  obtain ⟨ekvs, req, req2, resp, resp2, he, hinit, hlookR, hreq2, hlookResp, hresp2, he2⟩ :=
    sanitize_entry_ok hse
  rw [he, he2]
  simp [obj_getItem, alookup_aset_ne _ "response" "_initiator" _ (by decide),
    alookup_aset_ne _ "request" "_initiator" _ (by decide)]

/-- C1 witness: on the concrete `docFull` the `_initiator` of the single
entry, whose `url` carries a sensitive parameter, is returned verbatim. -/
theorem C1_witness :
    docFull0.hasKey "_initiator" = .ok true ∧
    docFullOut0.getItem "_initiator" = docFull0.getItem "_initiator" ∧
    docFullOut0.getItem "_initiator"
      = .ok (.obj [("url", .str "https://ini/x?X-Amz-Signature=sig"), ("type", .str "script")]) := by
  refine ⟨rfl, ?_, rfl⟩
  have H := @C1_existing_initiator_untouched docFull docFullOut [docFull0] [docFullOut0]
    rfl rfl rfl
  have H2 := H.2 0 (by decide) (by decide) rfl
  simpa using H2

/-- C4.  After a successful sanitization every entry has
`response.content.text = "REDACTED"`, `request.cookies = []` and
`response.cookies = []`, whatever those fields held before. -/
theorem C4_content_and_cookies_redacted {d d1 : Json} {es1 : List Json}
    (h : sanitize_har_object d = .ok d1) (hes1 : docEntries d1 = .ok es1) :
    ∀ e ∈ es1,
      ∃ req resp content,
        e.getItem "request" = .ok req ∧ e.getItem "response" = .ok resp ∧
        resp.getItem "content" = .ok content ∧
        content.getItem "text" = .ok (.str STR_REDACTED) ∧
        req.getItem "cookies" = .ok (.arr []) ∧
        resp.getItem "cookies" = .ok (.arr []) := by
  obtain ⟨dkvs, lkvs, es0, es2, hd, hlookL, hlookE, hmapes, hd1⟩ := sanitize_har_object_ok h
  subst hd
  subst hd1
  rw [docEntries_sanitized] at hes1
  have hesq1 := Except.ok.inj hes1
  subst hesq1
  intro e he
  obtain ⟨x, hx, hfx⟩ := mapE_mem hmapes e he
  obtain ⟨ekvs, req, req2, resp, resp2, hxe, hinit, hlookR, hreq2, hlookResp, hresp2, he2⟩ :=
    sanitize_entry_ok hfx
  subst he2
  obtain ⟨rkvs, kvs1, hreq, hbr, hrest⟩ := sanitize_request_ok hreq2
  obtain ⟨kvsS, hs, hs2, qs, qs2, u, hkvsS, hH, hHm, hQ, hQm, hU, hreq2e⟩ :=
    sanitize_request_rest_ok hrest
  injection hkvsS with hkS
  subst hkS
  subst hreq2e
  obtain ⟨pkvs, ckvs, hpresp, hlookC, hresp2e⟩ := sanitize_response_ok hresp2
  subst hresp2e
  refine ⟨.obj (aset (aset (aset (aset kvs1 "cookies" (.arr [])) "headers" (.arr hs2))
      "queryString" (.arr qs2)) "url" (.str (mask_query_string u SENSITIVE_KEYS))),
    .obj (aset (aset pkvs "content" (.obj (aset ckvs "text" (.str STR_REDACTED))))
      "cookies" (.arr [])),
    .obj (aset ckvs "text" (.str STR_REDACTED)), ?_, ?_, ?_, ?_, ?_, ?_⟩
  · simp [obj_getItem, alookup_aset_ne _ "response" "request" _ (by decide), alookup_aset_self]
  · simp [obj_getItem, alookup_aset_self]
  · simp [obj_getItem, alookup_aset_ne _ "cookies" "content" _ (by decide), alookup_aset_self]
  · simp [obj_getItem, alookup_aset_self]
  · simp [obj_getItem, alookup_aset_ne _ "url" "cookies" _ (by decide),
      alookup_aset_ne _ "queryString" "cookies" _ (by decide),
      alookup_aset_ne _ "headers" "cookies" _ (by decide), alookup_aset_self]
  · simp [obj_getItem, alookup_aset_self]

/-- C4 witness: the theorem applied to the concrete `docFull`. -/
theorem C4_witness :
    ∃ req resp content,
      docFullOut0.getItem "request" = .ok req ∧ docFullOut0.getItem "response" = .ok resp ∧
      resp.getItem "content" = .ok content ∧
      content.getItem "text" = .ok (.str STR_REDACTED) ∧
      req.getItem "cookies" = .ok (.arr []) ∧
      resp.getItem "cookies" = .ok (.arr []) := by
  have H := @C4_content_and_cookies_redacted docFull docFullOut [docFullOut0] rfl rfl
  exact H docFullOut0 (by simp)

/-- C5.  Missing required keys abort the whole sanitization with a key
lookup error: an absent `log` or `log.entries`, an entry without
`request` or `response`, a request without `headers` or `queryString`,
or a response without `content` (each time provided the run reaches the
offending lookup: earlier entries sanitize, and the preceding fields of
the same entry are well-formed). -/
theorem C5_missing_required_keys_abort :
    (∀ dkvs : List (String × Json), alookup dkvs "log" = none →
      sanitize_har_object (.obj dkvs) = .error (.keyError "log")) ∧
    (∀ dkvs lkvs : List (String × Json), alookup dkvs "log" = some (.obj lkvs) →
      alookup lkvs "entries" = none →
      sanitize_har_object (.obj dkvs) = .error (.keyError "entries")) ∧
    (∀ (d : Json) (es1 es2 l1 : List Json) (ekvs : List (String × Json)),
      docEntries d = .ok (es1 ++ .obj ekvs :: es2) → mapE sanitize_entry es1 = .ok l1 →
      alookup ekvs "request" = none →
      ∃ k, sanitize_har_object d = .error (.keyError k)) ∧
    (∀ (d : Json) (es1 es2 l1 : List Json) (ekvs : List (String × Json)) (req req2 : Json),
      docEntries d = .ok (es1 ++ .obj ekvs :: es2) → mapE sanitize_entry es1 = .ok l1 →
      (alookup ekvs "_initiator").isSome = true → alookup ekvs "request" = some req →
      sanitize_request req = .ok req2 → alookup ekvs "response" = none →
      sanitize_har_object d = .error (.keyError "response")) ∧
    (∀ (d : Json) (es1 es2 l1 : List Json) (ekvs rkvs : List (String × Json)),
      docEntries d = .ok (es1 ++ .obj ekvs :: es2) → mapE sanitize_entry es1 = .ok l1 →
      (alookup ekvs "_initiator").isSome = true →
      alookup ekvs "request" = some (.obj rkvs) → alookup rkvs "postData" = none →
      alookup rkvs "headers" = none →
      sanitize_har_object d = .error (.keyError "headers")) ∧
    (∀ (d : Json) (es1 es2 l1 hs hs2 : List Json) (ekvs rkvs : List (String × Json)),
      docEntries d = .ok (es1 ++ .obj ekvs :: es2) → mapE sanitize_entry es1 = .ok l1 →
      (alookup ekvs "_initiator").isSome = true →
      alookup ekvs "request" = some (.obj rkvs) → alookup rkvs "postData" = none →
      alookup rkvs "headers" = some (.arr hs) → mapE sanitize_header hs = .ok hs2 →
      alookup rkvs "queryString" = none →
      sanitize_har_object d = .error (.keyError "queryString")) ∧
    (∀ (d : Json) (es1 es2 l1 : List Json) (ekvs respkvs : List (String × Json)) (req req2 : Json),
      docEntries d = .ok (es1 ++ .obj ekvs :: es2) → mapE sanitize_entry es1 = .ok l1 →
      (alookup ekvs "_initiator").isSome = true → alookup ekvs "request" = some req →
      sanitize_request req = .ok req2 → alookup ekvs "response" = some (.obj respkvs) →
      alookup respkvs "content" = none →
      sanitize_har_object d = .error (.keyError "content")) := by
  refine ⟨?_, ?_, ?_, ?_, ?_, ?_, ?_⟩
  · intro dkvs h
    simp [sanitize_har_object, obj_getItem, h]
  · intro dkvs lkvs h1 h2
    simp [sanitize_har_object, obj_getItem, h1, h2]
  · intro d es1 es2 l1 ekvs hes h1 hreq
    obtain ⟨k, hk⟩ := sanitize_entry_no_request hreq
    exact ⟨k, sanitize_har_object_entry_error hes h1 hk⟩
  · intro d es1 es2 l1 ekvs req req2 hes h1 hini hreq hok hresp
    exact sanitize_har_object_entry_error hes h1
      (sanitize_entry_no_response hini hreq hok hresp)
  · intro d es1 es2 l1 ekvs rkvs hes h1 hini hreq hpd hH
    exact sanitize_har_object_entry_error hes h1
      (sanitize_entry_request_error hini hreq (sanitize_request_no_headers hpd hH))
  · intro d es1 es2 l1 hs hs2 ekvs rkvs hes h1 hini hreq hpd hH hHm hQ
    exact sanitize_har_object_entry_error hes h1
      (sanitize_entry_request_error hini hreq (sanitize_request_no_queryString hpd hH hHm hQ))
  · intro d es1 es2 l1 ekvs respkvs req req2 hes h1 hini hreq hok hresp hct
    exact sanitize_har_object_entry_error hes h1
      (sanitize_entry_response_error hini hreq hok hresp (sanitize_response_no_content hct))

/-- Entry fixture lacking `request` (it has `_initiator` and `response`). -/
def entryNoRequest : Json := .obj [
  ("_initiator", .obj []),
  ("response", .obj [("content", .obj [("text", .str "b")]), ("cookies", .arr [])])]

/-- Entry fixture lacking `response`. -/
def entryNoResponse : Json := .obj [
  ("_initiator", .obj []),
  ("request", .obj [("url", .str "https://a/b"), ("headers", .arr []), ("cookies", .arr []),
    ("queryString", .arr [])])]

/-- Entry fixture whose request lacks `headers`. -/
def entryNoHeaders : Json := .obj [
  ("_initiator", .obj []),
  ("request", .obj [("url", .str "https://a/b"), ("cookies", .arr []),
    ("queryString", .arr [])]),
  ("response", .obj [("content", .obj [("text", .str "b")]), ("cookies", .arr [])])]

/-- Entry fixture whose request lacks `queryString`. -/
def entryNoQueryString : Json := .obj [
  ("_initiator", .obj []),
  ("request", .obj [("url", .str "https://a/b"), ("headers", .arr []), ("cookies", .arr [])]),
  ("response", .obj [("content", .obj [("text", .str "b")]), ("cookies", .arr [])])]

/-- Entry fixture whose response lacks `content`. -/
def entryNoContent : Json := .obj [
  ("_initiator", .obj []),
  ("request", .obj [("url", .str "https://a/b"), ("headers", .arr []), ("cookies", .arr []),
    ("queryString", .arr [])]),
  ("response", .obj [("cookies", .arr [])])]

/-- Entry fixture whose request lacks `url`. -/
def entryNoUrl : Json := .obj [
  ("_initiator", .obj []),
  ("request", .obj [("headers", .arr []), ("cookies", .arr []), ("queryString", .arr [])]),
  ("response", .obj [("content", .obj [("text", .str "b")]), ("cookies", .arr [])])]

/-- One-entry document around an entry fixture. -/
def docOf (e : Json) : Json := .obj [("log", .obj [("entries", .arr [e])])]

/-- C5 witness: each failure condition demonstrated on a concrete
document, through the theorem. -/
theorem C5_witness :
    sanitize_har_object (.obj [("notlog", .num 1)]) = .error (.keyError "log") ∧
    sanitize_har_object (.obj [("log", .obj [("creator", .str "x")])])
      = .error (.keyError "entries") ∧
    (∃ k, sanitize_har_object (docOf entryNoRequest) = .error (.keyError k)) ∧
    sanitize_har_object (docOf entryNoResponse) = .error (.keyError "response") ∧
    sanitize_har_object (docOf entryNoHeaders) = .error (.keyError "headers") ∧
    sanitize_har_object (docOf entryNoQueryString) = .error (.keyError "queryString") ∧
    sanitize_har_object (docOf entryNoContent) = .error (.keyError "content") := by
  refine ⟨C5_missing_required_keys_abort.1 _ rfl,
    C5_missing_required_keys_abort.2.1 _ _ rfl rfl,
    C5_missing_required_keys_abort.2.2.1 (docOf entryNoRequest) [] [] [] _ rfl rfl rfl,
    C5_missing_required_keys_abort.2.2.2.1 (docOf entryNoResponse) [] [] [] _
      (.obj [("url", .str "https://a/b"), ("headers", .arr []), ("cookies", .arr []),
        ("queryString", .arr [])]) _ rfl rfl rfl rfl rfl rfl,
    C5_missing_required_keys_abort.2.2.2.2.1 (docOf entryNoHeaders) [] [] [] _ _
      rfl rfl rfl rfl rfl rfl,
    C5_missing_required_keys_abort.2.2.2.2.2.1 (docOf entryNoQueryString) [] [] [] [] []
      _ _ rfl rfl rfl rfl rfl rfl rfl rfl,
    C5_missing_required_keys_abort.2.2.2.2.2.2 (docOf entryNoContent) [] [] [] _ _
      (.obj [("url", .str "https://a/b"), ("headers", .arr []), ("cookies", .arr []),
        ("queryString", .arr [])]) _ rfl rfl rfl rfl rfl rfl rfl⟩

/-- C9.  Implicitly, the request's `url` key is also required: a request
with well-formed `headers` and `queryString` but no `url` makes the
whole sanitization fail with `KeyError("url")`. -/
theorem C9_missing_url_key_error {d : Json} {es1 es2 l1 hs hs2 qs qs2 : List Json}
    {ekvs rkvs : List (String × Json)}
    (hes : docEntries d = .ok (es1 ++ .obj ekvs :: es2))
    (h1 : mapE sanitize_entry es1 = .ok l1)
    (hini : (alookup ekvs "_initiator").isSome = true)
    (hreq : alookup ekvs "request" = some (.obj rkvs))
    (hpd : alookup rkvs "postData" = none)
    (hH : alookup rkvs "headers" = some (.arr hs))
    (hHm : mapE sanitize_header hs = .ok hs2)
    (hQ : alookup rkvs "queryString" = some (.arr qs))
    (hQm : mapE sanitize_qs_entry qs = .ok qs2)
    (hU : alookup rkvs "url" = none) :
    sanitize_har_object d = .error (.keyError "url") :=
  sanitize_har_object_entry_error hes h1
    (sanitize_entry_request_error hini hreq (sanitize_request_no_url hpd hH hHm hQ hQm hU))

/-- C9 witness: a concrete document whose request lacks only `url`. -/
theorem C9_witness :
    sanitize_har_object (docOf entryNoUrl) = .error (.keyError "url") :=
  @C9_missing_url_key_error (docOf entryNoUrl) [] [] [] [] [] [] [] _ _
    rfl rfl rfl rfl rfl rfl rfl rfl rfl rfl

/-- C6.  Header redaction matches the name `"Authorization"` exactly and
case-sensitively: a successful `sanitize_request` maps the header list
elementwise through `redactHeaderPure`, which overwrites `value` with the
redaction marker when the name is exactly `"Authorization"` and returns
any header with a different name (such as lowercase `"authorization"`)
completely unchanged. -/
theorem C6_header_redaction_exact_match {req req2 : Json} {hs : List Json}
    (hH : req.getItem "headers" = .ok (.arr hs))
    (h : sanitize_request req = .ok req2) :
    req2.getItem "headers" = .ok (.arr (hs.map redactHeaderPure)) ∧
    (∀ hd kvs, hd = Json.obj kvs → alookup kvs "name" = some (.str "Authorization") →
      redactHeaderPure hd = .obj (aset kvs "value" (.str STR_REDACTED))) ∧
    (∀ hd kvs s, hd = Json.obj kvs → alookup kvs "name" = some (.str s) →
      s ≠ "Authorization" → redactHeaderPure hd = hd) := by
  refine ⟨?_, ?_, ?_⟩
  · obtain ⟨kvs, kvs1, hkvs, hbr, hrest⟩ := sanitize_request_ok h
    subst hkvs
    obtain ⟨kvsS, hs0, hs2, qs, qs2, u, hkvsS, hHl, hHm, hQ, hQm, hU, hreq2⟩ :=
      sanitize_request_rest_ok hrest
    injection hkvsS with hkS
    subst hkS
    subst hreq2
    obtain ⟨kvsH, hkvsH, hHkvs⟩ := getItem_ok hH
    injection hkvsH with hkH
    subst hkH
    have hHkvs1 : alookup kvs1 "headers" = some (.arr hs) := by
      rcases hbr with ⟨hnone, hk1⟩ | ⟨pdkvs, hsome, hk1⟩
      · rw [hk1]
        exact hHkvs
      · rw [hk1, alookup_aset_ne _ "postData" "headers" _ (by decide)]
        exact hHkvs
    rw [hHkvs1] at hHl
    have h2 := Option.some.inj hHl
    have hseq : hs0 = hs := by
      injection h2 with h3
      exact h3.symm
    subst hseq
    have hmap : hs2 = List.map redactHeaderPure hs0 :=
      mapE_map_eq hHm (fun x _hx y hy => (sanitize_header_ok hy).1)
    subst hmap
    simp [obj_getItem, alookup_aset_ne _ "url" "headers" _ (by decide),
      alookup_aset_ne _ "queryString" "headers" _ (by decide), alookup_aset_self]
  · intro hd kvs hkvs hname
    subst hkvs
    simp [redactHeaderPure, hname]
  · intro hd kvs s hkvs hname hne
    subst hkvs
    simp [redactHeaderPure, hname, hne]

/-- C6 witness: the concrete request of `docFull`, whose headers carry
`Authorization`, lowercase `authorization`, and `Accept`. -/
theorem C6_witness :
    sanitize_request docFullReq = .ok docFullReqOut ∧
    docFullReqOut.getItem "headers" = .ok (.arr [
      .obj [("name", .str "Authorization"), ("value", .str "REDACTED")],
      .obj [("name", .str "authorization"), ("value", .str "keep")],
      .obj [("name", .str "Accept"), ("value", .str "*")]]) := by
  have H := @C6_header_redaction_exact_match docFullReq docFullReqOut
    [.obj [("name", .str "Authorization"), ("value", .str "Bearer xyz")],
      .obj [("name", .str "authorization"), ("value", .str "keep")],
      .obj [("name", .str "Accept"), ("value", .str "*")]] rfl rfl
  refine ⟨rfl, ?_⟩
  have H1 := H.1
  rw [show List.map redactHeaderPure [
      Json.obj [("name", .str "Authorization"), ("value", .str "Bearer xyz")],
      Json.obj [("name", .str "authorization"), ("value", .str "keep")],
      Json.obj [("name", .str "Accept"), ("value", .str "*")]] = [
      Json.obj [("name", .str "Authorization"), ("value", .str "REDACTED")],
      Json.obj [("name", .str "authorization"), ("value", .str "keep")],
      Json.obj [("name", .str "Accept"), ("value", .str "*")]] from rfl] at H1
  exact H1

/-- C8.  Structure preservation: a successful sanitization keeps the
entry count and order (each output entry is the sanitization of the
input entry at the same index), keeps header order and query-string
order (the lists are mapped elementwise), and leaves every key that no
redaction rule targets — at the document, log, entry, request, header,
query-string-entry, response and content levels, including unknown
keys — byte-for-byte unchanged. -/
theorem C8_structure_preserved {d d1 : Json} {es es1 : List Json}
    (h : sanitize_har_object d = .ok d1)
    (hes : docEntries d = .ok es) (hes1 : docEntries d1 = .ok es1) :
    (es1.length = es.length ∧
      ∀ i (hi : i < es.length) (hi1 : i < es1.length),
        sanitize_entry (es.get ⟨i, hi⟩) = .ok (es1.get ⟨i, hi1⟩)) ∧
    (∀ k, k ≠ "log" → d1.getItem k = d.getItem k) ∧
    (∀ lg lg1, d.getItem "log" = .ok lg → d1.getItem "log" = .ok lg1 →
      ∀ k, k ≠ "entries" → lg1.getItem k = lg.getItem k) ∧
    (∀ i (hi : i < es.length) (hi1 : i < es1.length), ∀ k, k ≠ "request" → k ≠ "response" →
      (es1.get ⟨i, hi1⟩).getItem k = (es.get ⟨i, hi⟩).getItem k) ∧
    (∀ i (hi : i < es.length) (hi1 : i < es1.length), ∀ req req1,
      (es.get ⟨i, hi⟩).getItem "request" = .ok req →
      (es1.get ⟨i, hi1⟩).getItem "request" = .ok req1 →
      (∀ k, k ≠ "postData" → k ≠ "cookies" → k ≠ "headers" → k ≠ "queryString" → k ≠ "url" →
        req1.getItem k = req.getItem k) ∧
      (∀ hs, req.getItem "headers" = .ok (.arr hs) →
        req1.getItem "headers" = .ok (.arr (List.map redactHeaderPure hs))) ∧
      (∀ qsl, req.getItem "queryString" = .ok (.arr qsl) →
        req1.getItem "queryString" = .ok (.arr (List.map redactQsPure qsl)))) ∧
    (∀ hd k, k ≠ "value" → (redactHeaderPure hd).getItem k = hd.getItem k) ∧
    (∀ qe k, k ≠ "value" → (redactQsPure qe).getItem k = qe.getItem k) ∧
    (∀ i (hi : i < es.length) (hi1 : i < es1.length), ∀ resp resp1,
      (es.get ⟨i, hi⟩).getItem "response" = .ok resp →
      (es1.get ⟨i, hi1⟩).getItem "response" = .ok resp1 →
      (∀ k, k ≠ "content" → k ≠ "cookies" → resp1.getItem k = resp.getItem k) ∧
      (∀ ct ct1, resp.getItem "content" = .ok ct → resp1.getItem "content" = .ok ct1 →
        ∀ k, k ≠ "text" → ct1.getItem k = ct.getItem k)) := by
  obtain ⟨dkvs, lkvs, es0, es2, hd, hlookL, hlookE, hmapes, hd1⟩ := sanitize_har_object_ok h
  subst hd
  subst hd1
  rw [show docEntries (Json.obj dkvs) = .ok es0 from by
    simp [docEntries, obj_getItem, hlookL, hlookE, Json.asArr]] at hes
  have hesq := Except.ok.inj hes
  subst hesq
  rw [docEntries_sanitized] at hes1
  have hesq1 := Except.ok.inj hes1
  subst hesq1
  refine ⟨⟨mapE_length hmapes, fun i hi hi1 => mapE_get hmapes i hi hi1⟩, ?_, ?_, ?_, ?_, ?_, ?_, ?_⟩
  · intro k hk
    simp [obj_getItem, alookup_aset_ne _ "log" k _ hk]
  · intro lg lg1 hlg hlg1 k hk
    rw [show (Json.obj dkvs).getItem "log" = .ok (.obj lkvs) from by
      simp [obj_getItem, hlookL]] at hlg
    have hlge := Except.ok.inj hlg
    subst hlge
    rw [show (Json.obj (aset dkvs "log" (.obj (aset lkvs "entries" (.arr es2))))).getItem "log"
        = .ok (.obj (aset lkvs "entries" (.arr es2))) from by
      simp [obj_getItem, alookup_aset_self]] at hlg1
    have hlge1 := Except.ok.inj hlg1
    subst hlge1
    simp [obj_getItem, alookup_aset_ne _ "entries" k _ hk]
  · intro i hi hi1 k hk1 hk2
    obtain ⟨ekvs, req, req2, resp, resp2, hxe, hinit, hlookR, hlookResp, hreq2x, hresp2x, he2⟩ :=
      sanitize_entry_ok (mapE_get hmapes i hi hi1)
    rw [hxe, he2]
    simp [obj_getItem, alookup_aset_ne _ "response" k _ hk2, alookup_aset_ne _ "request" k _ hk1]
  · intro i hi hi1 req req1 hreq hreq1
    obtain ⟨ekvs, req0, req2, resp, resp2, hxe, hinit, hlookR, hreq2x, hlookResp, hresp2x, he2⟩ :=
      sanitize_entry_ok (mapE_get hmapes i hi hi1)
    rw [hxe] at hreq
    rw [show (Json.obj ekvs).getItem "request" = .ok req0 from by
      simp [obj_getItem, hlookR]] at hreq
    have hreqe := Except.ok.inj hreq
    subst hreqe
    rw [he2] at hreq1
    rw [show (Json.obj (aset (aset ekvs "request" req2) "response" resp2)).getItem "request"
        = .ok req2 from by
      simp [obj_getItem, alookup_aset_ne _ "response" "request" _ (by decide),
        alookup_aset_self]] at hreq1
    have hreqe1 := Except.ok.inj hreq1
    subst hreqe1
    obtain ⟨kvs, kvs1, hkvs, hbr, hrest⟩ := sanitize_request_ok hreq2x
    subst hkvs
    obtain ⟨kvsS, hs0, hs2, qs0, qs2, u, hkvsS, hHl, hHm, hQl, hQm, hUl, hreq2e⟩ :=
      sanitize_request_rest_ok hrest
    injection hkvsS with hkS
    subst hkS
    subst hreq2e
    refine ⟨?_, ?_, ?_⟩
    · intro k hpd hck hhd hqs hurl
      have hkvs1 : alookup kvs1 k = alookup kvs k := by
        rcases hbr with ⟨hnone, hk1⟩ | ⟨pdkvs, hsome, hk1⟩
        · rw [hk1]
        · rw [hk1, alookup_aset_ne _ "postData" k _ hpd]
      simp [obj_getItem, alookup_aset_ne _ "url" k _ hurl,
        alookup_aset_ne _ "queryString" k _ hqs, alookup_aset_ne _ "headers" k _ hhd,
        alookup_aset_ne _ "cookies" k _ hck, hkvs1]
    · intro hs hH
      obtain ⟨kvsH, hkvsH, hHkvs⟩ := getItem_ok hH
      injection hkvsH with hkH
      subst hkH
      have hHkvs1 : alookup kvs1 "headers" = some (.arr hs) := by
        rcases hbr with ⟨hnone, hk1⟩ | ⟨pdkvs, hsome, hk1⟩
        · rw [hk1]
          exact hHkvs
        · rw [hk1, alookup_aset_ne _ "postData" "headers" _ (by decide)]
          exact hHkvs
      rw [hHkvs1] at hHl
      have h2 := Option.some.inj hHl
      have hseq : hs0 = hs := by
        injection h2 with h3
        exact h3.symm
      subst hseq
      have hmapH : hs2 = List.map redactHeaderPure hs0 :=
        mapE_map_eq hHm (fun x _hx y hy => (sanitize_header_ok hy).1)
      subst hmapH
      simp [obj_getItem, alookup_aset_ne _ "url" "headers" _ (by decide),
        alookup_aset_ne _ "queryString" "headers" _ (by decide), alookup_aset_self]
    · intro qsl hQ
      obtain ⟨kvsQ, hkvsQ, hQkvs⟩ := getItem_ok hQ
      injection hkvsQ with hkQ
      subst hkQ
      have hQkvs1 : alookup kvs1 "queryString" = some (.arr qsl) := by
        rcases hbr with ⟨hnone, hk1⟩ | ⟨pdkvs, hsome, hk1⟩
        · rw [hk1]
          exact hQkvs
        · rw [hk1, alookup_aset_ne _ "postData" "queryString" _ (by decide)]
          exact hQkvs
      rw [hQkvs1] at hQl
      have h2 := Option.some.inj hQl
      have hseq : qs0 = qsl := by
        injection h2 with h3
        exact h3.symm
      subst hseq
      have hmapQ : qs2 = List.map redactQsPure qs0 :=
        mapE_map_eq hQm (fun x _hx y hy => (sanitize_qs_entry_ok hy).1)
      subst hmapQ
      simp [obj_getItem, alookup_aset_ne _ "url" "queryString" _ (by decide),
        alookup_aset_self]
  · intro hd k hk
    cases hd with
    | obj kvs =>
      cases hn : alookup kvs "name" with
      | none => simp [redactHeaderPure, hn]
      | some nm =>
        cases nm with
        | str s =>
          by_cases hs : s = "Authorization"
          · simp [redactHeaderPure, hn, hs, obj_getItem, alookup_aset_ne _ "value" k _ hk]
          · simp [redactHeaderPure, hn, hs]
        | null => simp [redactHeaderPure, hn]
        | bool b => simp [redactHeaderPure, hn]
        | num n => simp [redactHeaderPure, hn]
        | arr a => simp [redactHeaderPure, hn]
        | obj o => simp [redactHeaderPure, hn]
    | null => simp [redactHeaderPure]
    | bool b => simp [redactHeaderPure]
    | num n => simp [redactHeaderPure]
    | str s => simp [redactHeaderPure]
    | arr a => simp [redactHeaderPure]
  · intro qe k hk
    cases qe with
    | obj kvs =>
      cases hn : alookup kvs "name" with
      | none => simp [redactQsPure, hn]
      | some nm =>
        cases nm with
        | str s =>
          by_cases hs : s ∈ SENSITIVE_KEYS
          · simp [redactQsPure, hn, hs, obj_getItem, alookup_aset_ne _ "value" k _ hk]
          · simp [redactQsPure, hn, hs]
        | null => simp [redactQsPure, hn]
        | bool b => simp [redactQsPure, hn]
        | num n => simp [redactQsPure, hn]
        | arr a => simp [redactQsPure, hn]
        | obj o => simp [redactQsPure, hn]
    | null => simp [redactQsPure]
    | bool b => simp [redactQsPure]
    | num n => simp [redactQsPure]
    | str s => simp [redactQsPure]
    | arr a => simp [redactQsPure]
  · intro i hi hi1 resp resp1 hresp hresp1
    obtain ⟨ekvs, req0, req2, resp0, resp2, hxe, hinit, hlookR, hreq2x, hlookResp, hresp2x, he2⟩ :=
      sanitize_entry_ok (mapE_get hmapes i hi hi1)
    rw [hxe] at hresp
    rw [show (Json.obj ekvs).getItem "response" = .ok resp0 from by
      simp [obj_getItem, hlookResp]] at hresp
    have hrespe := Except.ok.inj hresp
    subst hrespe
    rw [he2] at hresp1
    rw [show (Json.obj (aset (aset ekvs "request" req2) "response" resp2)).getItem "response"
        = .ok resp2 from by
      simp [obj_getItem, alookup_aset_self]] at hresp1
    have hrespe1 := Except.ok.inj hresp1
    subst hrespe1
    obtain ⟨pkvs, ckvs, hpresp, hlookC, hresp2e⟩ := sanitize_response_ok hresp2x
    subst hpresp
    subst hresp2e
    refine ⟨?_, ?_⟩
    · intro k hct hck
      simp [obj_getItem, alookup_aset_ne _ "cookies" k _ hck,
        alookup_aset_ne _ "content" k _ hct]
    · intro ct ct1 hctl hctl1 k hk
      rw [show (Json.obj pkvs).getItem "content" = .ok (.obj ckvs) from by
        simp [obj_getItem, hlookC]] at hctl
      have hcte := Except.ok.inj hctl
      subst hcte
      rw [show (Json.obj (aset (aset pkvs "content"
          (.obj (aset ckvs "text" (.str STR_REDACTED)))) "cookies" (.arr []))).getItem "content"
          = .ok (.obj (aset ckvs "text" (.str STR_REDACTED))) from by
        simp [obj_getItem, alookup_aset_ne _ "cookies" "content" _ (by decide),
          alookup_aset_self]] at hctl1
      have hcte1 := Except.ok.inj hctl1
      subst hcte1
      simp [obj_getItem, alookup_aset_ne _ "text" k _ hk]

/-- C8 witness: on `docFull`, the unknown entry key `extraKey`, the
request's `method`, the response's `status` and the content's `size` all
come out unchanged, and the version key of the log survives. -/
theorem C8_witness :
    docFullOut.getItem "notakey" = docFull.getItem "notakey" ∧
    docFullOut0.getItem "extraKey" = docFull0.getItem "extraKey" ∧
    docFullReqOut.getItem "method" = docFullReq.getItem "method" := by
  have H := @C8_structure_preserved docFull docFullOut [docFull0] [docFullOut0]
    rfl rfl rfl
  refine ⟨H.2.1 "notakey" (by decide), ?_, ?_⟩
  · have H4 := H.2.2.2.1 0 (by decide) (by decide) "extraKey" (by decide) (by decide)
    simpa using H4
  · have H5 := (H.2.2.2.2.1 0 (by decide) (by decide) docFullReq docFullReqOut rfl rfl).1
    exact H5 "method" (by decide) (by decide) (by decide) (by decide) (by decide)

/-! ## Round-trip of the query-string encoding

`parse_qs (urlencode Q) = Q` for the well-formed tables `Q` that the
masking loop produces.  The chain goes through the `quote_plus` /
`unquote_plus` round-trip, which in turn rests on the UTF-8
encode/decode round-trip. -/

theorem char_valid_ranges (c : Char) :
    c.toNat < 55296 ∨ (57343 < c.toNat ∧ c.toNat < 1114112) := by
  rcases c.valid with h | h
  · exact Or.inl h
  · exact Or.inr ⟨h.1, h.2⟩

theorem alwaysSafe_toNat_le {c : Char} (h : alwaysSafeChar c = true) : c.toNat ≤ 127 := by
  simp only [alwaysSafeChar, Bool.or_eq_true, Bool.and_eq_true, decide_eq_true_eq] at h
  rcases h with ((((((h | h) | h) | h) | h) | h) | h)
  · omega
  · omega
  · omega
  · subst h
    decide
  · subst h
    decide
  · subst h
    decide
  · subst h
    decide

theorem alwaysSafe_ne_pct {c : Char} (h : alwaysSafeChar c = true) : c ≠ '%' := by
  intro hc
  subst hc
  exact absurd h (by decide)

theorem alwaysSafe_ne_plus {c : Char} (h : alwaysSafeChar c = true) : c ≠ '+' := by
  intro hc
  subst hc
  exact absurd h (by decide)

theorem utf8Bytes_lt_256 {c : Char} {b : Nat} (hb : b ∈ utf8Bytes c) : b < 256 := by
  have hv := char_valid_ranges c
  simp only [utf8Bytes] at hb
  by_cases h1 : c.toNat < 128
  · rw [if_pos h1] at hb
    simp only [List.mem_singleton] at hb
    omega
  · rw [if_neg h1] at hb
    by_cases h2 : c.toNat < 2048
    · rw [if_pos h2] at hb
      simp only [List.mem_cons, List.not_mem_nil, or_false] at hb
      rcases hb with hb | hb
      · omega
      · omega
    · rw [if_neg h2] at hb
      by_cases h3 : c.toNat < 65536
      · rw [if_pos h3] at hb
        simp only [List.mem_cons, List.not_mem_nil, or_false] at hb
        rcases hb with hb | hb | hb
        · omega
        · omega
        · omega
      · rw [if_neg h3] at hb
        simp only [List.mem_cons, List.not_mem_nil, or_false] at hb
        rcases hb with hb | hb | hb | hb
        · omega
        · omega
        · omega
        · omega

theorem hexVal_hexUpper {n : Nat} (h : n < 16) : hexVal (hexUpper n) = some n := by
  interval_cases n <;> decide

theorem hexUpper_safe {n : Nat} (h : n < 16) :
    alwaysSafeChar (hexUpper n) = true ∧ hexUpper n ≠ '+' ∧ hexUpper n ≠ '%' := by
  interval_cases n <;> exact ⟨by decide, by decide, by decide⟩

/-- Members of `quotePlusChar c` are always-safe characters, `+`, or `%`. -/
theorem quotePlusChar_mem {c x : Char} (hx : x ∈ quotePlusChar c) :
    alwaysSafeChar x = true ∨ x = '+' ∨ x = '%' := by
  by_cases h1 : alwaysSafeChar c = true
  · rw [show quotePlusChar c = [c] from by simp [quotePlusChar, h1]] at hx
    rw [List.mem_singleton] at hx
    subst hx
    exact Or.inl h1
  · by_cases h2 : c = ' '
    · rw [show quotePlusChar c = ['+'] from by subst h2; rfl] at hx
      rw [List.mem_singleton] at hx
      subst hx
      exact Or.inr (Or.inl rfl)
    · rw [show quotePlusChar c = (utf8Bytes c).flatMap percentEncodeByte from by
        simp [quotePlusChar, h1, h2]] at hx
      simp only [List.mem_flatMap] at hx
      obtain ⟨b, hb, hxb⟩ := hx
      have hblt := utf8Bytes_lt_256 hb
      simp only [percentEncodeByte, List.mem_cons, List.not_mem_nil, or_false] at hxb
      rcases hxb with h | h | h
      · subst h
        exact Or.inr (Or.inr rfl)
      · subst h
        exact Or.inl (hexUpper_safe (by omega)).1
      · subst h
        exact Or.inl (hexUpper_safe (by omega)).1

theorem quotePlusChar_ascii {c x : Char} (hx : x ∈ quotePlusChar c) : isAsciiChar x = true := by
  rcases quotePlusChar_mem hx with h | h | h
  · simp only [isAsciiChar, decide_eq_true_eq]
    exact alwaysSafe_toNat_le h
  · subst h
    decide
  · subst h
    decide

theorem quotePlusChar_ne_amp_eq {c x : Char} (hx : x ∈ quotePlusChar c) :
    x ≠ '&' ∧ x ≠ '=' := by
  rcases quotePlusChar_mem hx with h | h | h
  · constructor
    · intro he
      subst he
      exact absurd h (by decide)
    · intro he
      subst he
      exact absurd h (by decide)
  · subst h
    exact ⟨by decide, by decide⟩
  · subst h
    exact ⟨by decide, by decide⟩

theorem quote_plus_ne_amp_eq {s : List Char} {x : Char} (hx : x ∈ quote_plus s) :
    x ≠ '&' ∧ x ≠ '=' := by
  simp only [quote_plus, List.mem_flatMap] at hx
  obtain ⟨c, _, hxc⟩ := hx
  exact quotePlusChar_ne_amp_eq hxc

theorem utf8Bytes_ne_nil (c : Char) : utf8Bytes c ≠ [] := by
  simp only [utf8Bytes]
  by_cases h1 : c.toNat < 128
  · simp [h1]
  · by_cases h2 : c.toNat < 2048
    · simp [h1, h2]
    · by_cases h3 : c.toNat < 65536
      · simp [h1, h2, h3]
      · simp [h1, h2, h3]

theorem quotePlusChar_ne_nil (c : Char) : quotePlusChar c ≠ [] := by
  by_cases h1 : alwaysSafeChar c = true
  · simp [quotePlusChar, h1]
  · by_cases h2 : c = ' '
    · subst h2
      decide
    · rw [show quotePlusChar c = (utf8Bytes c).flatMap percentEncodeByte from by
        simp [quotePlusChar, h1, h2]]
      cases hb : utf8Bytes c with
      | nil => exact absurd hb (utf8Bytes_ne_nil c)
      | cons b rest => simp [percentEncodeByte]

theorem quote_plus_ne_nil {s : List Char} (h : s ≠ []) : quote_plus s ≠ [] := by
  cases s with
  | nil => exact absurd rfl h
  | cons c rest =>
    simp only [quote_plus, List.flatMap_cons]
    intro hcon
    rcases List.append_eq_nil.mp hcon with ⟨h1, _⟩
    exact quotePlusChar_ne_nil c h1

/-- Variant of `quotePlusChar` as it stands after the `+`-to-space
replacement of `unquote_plus`. -/
def quoteSpChar (c : Char) : List Char :=
  if alwaysSafeChar c then [c]
  else if c = ' ' then [' ']
  else (utf8Bytes c).flatMap percentEncodeByte

theorem plusToSpace_eq_self {l : List Char} (h : ∀ x ∈ l, x ≠ '+') : plusToSpace l = l := by
  induction l with
  | nil => rfl
  | cons c rest ih =>
    have hc := h c (by simp)
    simp only [plusToSpace, List.map_cons, if_neg hc]
    have := ih (fun x hx => h x (by simp [hx]))
    simp only [plusToSpace] at this
    rw [this]

theorem plusToSpace_quote (s : List Char) :
    plusToSpace (quote_plus s) = s.flatMap quoteSpChar := by
  induction s with
  | nil => rfl
  | cons c rest ih =>
    have hhead : plusToSpace (quotePlusChar c) = quoteSpChar c := by
      by_cases h1 : alwaysSafeChar c = true
      · have hne := alwaysSafe_ne_plus h1
        rw [show quotePlusChar c = [c] from by simp [quotePlusChar, h1],
          show quoteSpChar c = [c] from by simp [quoteSpChar, h1]]
        simp [plusToSpace, hne]
      · by_cases h2 : c = ' '
        · subst h2
          rfl
        · rw [show quotePlusChar c = (utf8Bytes c).flatMap percentEncodeByte from by
            simp [quotePlusChar, h1, h2],
            show quoteSpChar c = (utf8Bytes c).flatMap percentEncodeByte from by
            simp [quoteSpChar, h1, h2]]
          apply plusToSpace_eq_self
          intro x hx
          simp only [List.mem_flatMap] at hx
          obtain ⟨b, hb, hxb⟩ := hx
          have hblt := utf8Bytes_lt_256 hb
          simp only [percentEncodeByte, List.mem_cons, List.not_mem_nil, or_false] at hxb
          rcases hxb with h | h | h
          · subst h
            decide
          · subst h
            exact (hexUpper_safe (by omega)).2.1
          · subst h
            exact (hexUpper_safe (by omega)).2.1
    calc plusToSpace (quote_plus (c :: rest))
        = plusToSpace (quotePlusChar c) ++ plusToSpace (quote_plus rest) := by
          simp [quote_plus, plusToSpace]
      _ = quoteSpChar c ++ rest.flatMap quoteSpChar := by rw [hhead, ih]
      _ = (c :: rest).flatMap quoteSpChar := by simp

theorem quoteSpChar_ascii {c x : Char} (hx : x ∈ quoteSpChar c) : isAsciiChar x = true := by
  by_cases h1 : alwaysSafeChar c = true
  · rw [show quoteSpChar c = [c] from by simp [quoteSpChar, h1], List.mem_singleton] at hx
    subst hx
    simp only [isAsciiChar, decide_eq_true_eq]
    exact alwaysSafe_toNat_le h1
  · by_cases h2 : c = ' '
    · rw [show quoteSpChar c = [' '] from by simp [quoteSpChar, h1, h2],
        List.mem_singleton] at hx
      subst hx
      decide
    · rw [show quoteSpChar c = (utf8Bytes c).flatMap percentEncodeByte from by
        simp [quoteSpChar, h1, h2]] at hx
      simp only [List.mem_flatMap] at hx
      obtain ⟨b, hb, hxb⟩ := hx
      have hblt := utf8Bytes_lt_256 hb
      simp only [percentEncodeByte, List.mem_cons, List.not_mem_nil, or_false] at hxb
      rcases hxb with h | h | h
      · subst h
        decide
      · subst h
        simp only [isAsciiChar, decide_eq_true_eq]
        exact alwaysSafe_toNat_le (hexUpper_safe (by omega)).1
      · subst h
        simp only [isAsciiChar, decide_eq_true_eq]
        exact alwaysSafe_toNat_le (hexUpper_safe (by omega)).1

theorem asciiSplit_all_ascii {cs : List Char} (h : ∀ c ∈ cs, isAsciiChar c = true)
    (hne : cs ≠ []) : asciiSplit cs = [.inl cs] := by
  induction cs with
  | nil => exact absurd rfl hne
  | cons c rest ih =>
    have hc := h c (by simp)
    show (if isAsciiChar c then asciiSplitStep c (asciiSplit rest)
      else .inr c :: asciiSplit rest) = [.inl (c :: rest)]
    rw [if_pos hc]
    cases rest with
    | nil => rfl
    | cons c2 rest2 =>
      rw [ih (fun x hx => h x (by simp [hx])) (by simp)]
      rfl

/-- On all-ASCII input, `unquote` is percent-decoding plus UTF-8
decoding of the single run. -/
theorem unquote_all_ascii {cs : List Char} (h : ∀ c ∈ cs, isAsciiChar c = true) :
    unquoteChars cs = utf8DecodeReplace (percentDecode cs) := by
  cases cs with
  | nil => rfl
  | cons c rest =>
    rw [unquoteChars, asciiSplit_all_ascii h (by simp)]
    simp

theorem pctLoop_encodeByte {b : Nat} (hb : b < 256) (t : List Char) :
    pctLoop none (percentEncodeByte b ++ t) = b :: pctLoop none t := by
  have h1 : hexVal (hexUpper (b / 16)) = some (b / 16) := hexVal_hexUpper (by omega)
  have h2 : hexVal (hexUpper (b % 16)) = some (b % 16) := hexVal_hexUpper (by omega)
  have h3 : 16 * (b / 16) + b % 16 = b := by omega
  simp [percentEncodeByte, pctLoop, h1, h2, h3]

theorem pctLoop_encodeBytes {bs : List Nat} (hb : ∀ b ∈ bs, b < 256) (t : List Char) :
    pctLoop none (bs.flatMap percentEncodeByte ++ t) = bs ++ pctLoop none t := by
  induction bs with
  | nil => simp
  | cons b rest ih =>
    rw [List.flatMap_cons, List.append_assoc, pctLoop_encodeByte (hb b (by simp))]
    rw [ih (fun x hx => hb x (by simp [hx]))]
    rfl

theorem pctLoop_quoteSp (s : List Char) :
    pctLoop none (s.flatMap quoteSpChar) = s.flatMap utf8Bytes := by
  induction s with
  | nil => rfl
  | cons c rest ih =>
    simp only [List.flatMap_cons]
    by_cases h1 : alwaysSafeChar c = true
    · have hne := alwaysSafe_ne_pct h1
      have hascii : c.toNat < 128 := Nat.lt_succ_of_le (alwaysSafe_toNat_le h1)
      rw [show quoteSpChar c = [c] from by simp [quoteSpChar, h1]]
      rw [show utf8Bytes c = [c.toNat] from by simp [utf8Bytes, hascii]]
      simp only [List.cons_append, List.nil_append]
      rw [show pctLoop none (c :: rest.flatMap quoteSpChar)
          = c.toNat :: pctLoop none (rest.flatMap quoteSpChar) from by simp [pctLoop, hne]]
      rw [ih]
    · by_cases h2 : c = ' '
      · subst h2
        rw [show quoteSpChar ' ' = [' '] from by simp [quoteSpChar]]
        rw [show utf8Bytes ' ' = [32] from by decide]
        simp only [List.cons_append, List.nil_append]
        rw [show pctLoop none (' ' :: rest.flatMap quoteSpChar)
            = 32 :: pctLoop none (rest.flatMap quoteSpChar) from by simp [pctLoop]]
        rw [ih]
      · rw [show quoteSpChar c = (utf8Bytes c).flatMap percentEncodeByte from by
          simp [quoteSpChar, h1, h2]]
        rw [pctLoop_encodeBytes (fun b hb => utf8Bytes_lt_256 hb)]
        rw [ih]

/-! ## Round-trip of UTF-8 decoding over encoding -/

theorem utf8Loop_none_cons (b : Nat) (bs : List Nat) :
    utf8Loop none (b :: bs)
      = (match startByte b with
         | .inl cs => cs ++ utf8Loop none bs
         | .inr st => utf8Loop (some st) bs) := rfl

theorem utf8Loop_some_cons (k acc lo hi b : Nat) (bs : List Nat) :
    utf8Loop (some (k, acc, lo, hi)) (b :: bs)
      = if lo ≤ b ∧ b ≤ hi then
          (if k = 1 then Char.ofNat (acc * 64 + (b - 128)) :: utf8Loop none bs
           else utf8Loop (some (k - 1, acc * 64 + (b - 128), 128, 191)) bs)
        else
          replChar ::
            (match startByte b with
             | .inl cs => cs ++ utf8Loop none bs
             | .inr st2 => utf8Loop (some st2) bs) := rfl

theorem utf8Loop_startInl {b : Nat} {cs : List Char} (h : startByte b = .inl cs)
    (bs : List Nat) : utf8Loop none (b :: bs) = cs ++ utf8Loop none bs := by
  rw [utf8Loop_none_cons, h]

theorem utf8Loop_startInr {b : Nat} {st : Nat × Nat × Nat × Nat}
    (h : startByte b = .inr st) (bs : List Nat) :
    utf8Loop none (b :: bs) = utf8Loop (some st) bs := by
  rw [utf8Loop_none_cons, h]

theorem utf8Loop_cont {k acc lo hi b : Nat} (h1 : lo ≤ b) (h2 : b ≤ hi) (h3 : k ≠ 1)
    (bs : List Nat) :
    utf8Loop (some (k, acc, lo, hi)) (b :: bs)
      = utf8Loop (some (k - 1, acc * 64 + (b - 128), 128, 191)) bs := by
  rw [utf8Loop_some_cons, if_pos ⟨h1, h2⟩, if_neg h3]

theorem utf8Loop_last {acc lo hi b : Nat} (h1 : lo ≤ b) (h2 : b ≤ hi) (bs : List Nat) :
    utf8Loop (some (1, acc, lo, hi)) (b :: bs)
      = Char.ofNat (acc * 64 + (b - 128)) :: utf8Loop none bs := by
  rw [utf8Loop_some_cons, if_pos ⟨h1, h2⟩, if_pos rfl]

theorem startByte_ascii {b : Nat} (h : b < 128) : startByte b = .inl [Char.ofNat b] := by
  simp only [startByte]
  rw [if_pos h]

theorem startByte_two {b : Nat} (h1 : 194 ≤ b) (h2 : b < 224) :
    startByte b = .inr (1, b - 192, 128, 191) := by
  simp only [startByte]
  rw [if_neg (by omega), if_neg (by omega), if_pos h2]

theorem startByte_e0 : startByte 224 = .inr (2, 0, 160, 191) := rfl

theorem startByte_ed : startByte 237 = .inr (2, 13, 128, 159) := rfl

theorem startByte_three {b : Nat} (h1 : 224 < b) (h2 : b < 240) (h3 : b ≠ 237) :
    startByte b = .inr (2, b - 224, 128, 191) := by
  simp only [startByte]
  rw [if_neg (by omega), if_neg (by omega), if_neg (by omega), if_neg (by omega),
    if_neg h3, if_pos h2]

theorem startByte_f0 : startByte 240 = .inr (3, 0, 144, 191) := rfl

theorem startByte_f4 : startByte 244 = .inr (3, 4, 128, 143) := rfl

theorem startByte_four {b : Nat} (h1 : 240 < b) (h2 : b < 245) (h3 : b ≠ 244) :
    startByte b = .inr (3, b - 240, 128, 191) := by
  simp only [startByte]
  rw [if_neg (by omega), if_neg (by omega), if_neg (by omega), if_neg (by omega),
    if_neg (by omega), if_neg (by omega), if_neg (by omega), if_neg h3, if_pos h2]

/-- Decoding inverts encoding: the UTF-8 bytes of a character decode to
that character, whatever bytes follow. -/
theorem utf8Loop_encodeChar (c : Char) (bs : List Nat) :
    utf8Loop none (utf8Bytes c ++ bs) = c :: utf8Loop none bs := by
  have hv := char_valid_ranges c
  simp only [utf8Bytes]
  by_cases h1 : c.toNat < 128
  · rw [if_pos h1, List.singleton_append, utf8Loop_startInl (startByte_ascii h1),
      List.singleton_append, Char.ofNat_toNat]
  · rw [if_neg h1]
    by_cases h2 : c.toNat < 2048
    · rw [if_pos h2]
      simp only [List.cons_append, List.nil_append]
      have e1 : utf8Loop none ((192 + c.toNat / 64) :: (128 + c.toNat % 64) :: bs)
          = utf8Loop (some (1, 192 + c.toNat / 64 - 192, 128, 191))
              ((128 + c.toNat % 64) :: bs) :=
        utf8Loop_startInr (startByte_two (by omega) (by omega)) _
      have e2 : utf8Loop (some (1, 192 + c.toNat / 64 - 192, 128, 191))
            ((128 + c.toNat % 64) :: bs)
          = Char.ofNat ((192 + c.toNat / 64 - 192) * 64 + (128 + c.toNat % 64 - 128))
              :: utf8Loop none bs :=
        utf8Loop_last (by omega) (by omega) _
      rw [e1, e2, show (192 + c.toNat / 64 - 192) * 64 + (128 + c.toNat % 64 - 128)
          = c.toNat from by omega, Char.ofNat_toNat]
    · rw [if_neg h2]
      by_cases h3 : c.toNat < 65536
      · rw [if_pos h3]
        simp only [List.cons_append, List.nil_append]
        by_cases hA : c.toNat < 4096
        · rw [show 224 + c.toNat / 4096 = 224 from by omega]
          have e1 := utf8Loop_startInr startByte_e0
              ((128 + c.toNat / 64 % 64) :: (128 + c.toNat % 64) :: bs)
          have e2 : utf8Loop (some (2, 0, 160, 191))
                ((128 + c.toNat / 64 % 64) :: (128 + c.toNat % 64) :: bs)
              = utf8Loop (some (1, 0 * 64 + (128 + c.toNat / 64 % 64 - 128), 128, 191))
                  ((128 + c.toNat % 64) :: bs) :=
            utf8Loop_cont (by omega) (by omega) (by omega) _
          have e3 : utf8Loop (some (1, 0 * 64 + (128 + c.toNat / 64 % 64 - 128), 128, 191))
                ((128 + c.toNat % 64) :: bs)
              = Char.ofNat ((0 * 64 + (128 + c.toNat / 64 % 64 - 128)) * 64
                    + (128 + c.toNat % 64 - 128)) :: utf8Loop none bs :=
            utf8Loop_last (by omega) (by omega) _
          rw [e1, e2, e3, show (0 * 64 + (128 + c.toNat / 64 % 64 - 128)) * 64
              + (128 + c.toNat % 64 - 128) = c.toNat from by omega, Char.ofNat_toNat]
        · by_cases hB : 53248 ≤ c.toNat ∧ c.toNat < 57344
          · rw [show 224 + c.toNat / 4096 = 237 from by omega]
            have e1 := utf8Loop_startInr startByte_ed
                ((128 + c.toNat / 64 % 64) :: (128 + c.toNat % 64) :: bs)
            have e2 : utf8Loop (some (2, 13, 128, 159))
                  ((128 + c.toNat / 64 % 64) :: (128 + c.toNat % 64) :: bs)
                = utf8Loop (some (1, 13 * 64 + (128 + c.toNat / 64 % 64 - 128), 128, 191))
                    ((128 + c.toNat % 64) :: bs) :=
              utf8Loop_cont (by omega) (by omega) (by omega) _
            have e3 : utf8Loop (some (1, 13 * 64 + (128 + c.toNat / 64 % 64 - 128), 128, 191))
                  ((128 + c.toNat % 64) :: bs)
                = Char.ofNat ((13 * 64 + (128 + c.toNat / 64 % 64 - 128)) * 64
                      + (128 + c.toNat % 64 - 128)) :: utf8Loop none bs :=
              utf8Loop_last (by omega) (by omega) _
            rw [e1, e2, e3, show (13 * 64 + (128 + c.toNat / 64 % 64 - 128)) * 64
                + (128 + c.toNat % 64 - 128) = c.toNat from by omega, Char.ofNat_toNat]
          · have e1 : utf8Loop none ((224 + c.toNat / 4096)
                  :: (128 + c.toNat / 64 % 64) :: (128 + c.toNat % 64) :: bs)
                = utf8Loop (some (2, 224 + c.toNat / 4096 - 224, 128, 191))
                    ((128 + c.toNat / 64 % 64) :: (128 + c.toNat % 64) :: bs) :=
              utf8Loop_startInr (startByte_three (by omega) (by omega) (by omega)) _
            have e2 : utf8Loop (some (2, 224 + c.toNat / 4096 - 224, 128, 191))
                  ((128 + c.toNat / 64 % 64) :: (128 + c.toNat % 64) :: bs)
                = utf8Loop (some (1, (224 + c.toNat / 4096 - 224) * 64
                      + (128 + c.toNat / 64 % 64 - 128), 128, 191))
                    ((128 + c.toNat % 64) :: bs) :=
              utf8Loop_cont (by omega) (by omega) (by omega) _
            have e3 : utf8Loop (some (1, (224 + c.toNat / 4096 - 224) * 64
                      + (128 + c.toNat / 64 % 64 - 128), 128, 191))
                  ((128 + c.toNat % 64) :: bs)
                = Char.ofNat (((224 + c.toNat / 4096 - 224) * 64
                        + (128 + c.toNat / 64 % 64 - 128)) * 64
                      + (128 + c.toNat % 64 - 128)) :: utf8Loop none bs :=
              utf8Loop_last (by omega) (by omega) _
            rw [e1, e2, e3, show ((224 + c.toNat / 4096 - 224) * 64
                    + (128 + c.toNat / 64 % 64 - 128)) * 64
                  + (128 + c.toNat % 64 - 128) = c.toNat from by omega, Char.ofNat_toNat]
      · rw [if_neg h3]
        simp only [List.cons_append, List.nil_append]
        by_cases hA : c.toNat < 262144
        · rw [show 240 + c.toNat / 262144 = 240 from by omega]
          have e1 := utf8Loop_startInr startByte_f0
              ((128 + c.toNat / 4096 % 64) :: (128 + c.toNat / 64 % 64)
                :: (128 + c.toNat % 64) :: bs)
          have e2 : utf8Loop (some (3, 0, 144, 191))
                ((128 + c.toNat / 4096 % 64) :: (128 + c.toNat / 64 % 64)
                  :: (128 + c.toNat % 64) :: bs)
              = utf8Loop (some (2, 0 * 64 + (128 + c.toNat / 4096 % 64 - 128), 128, 191))
                  ((128 + c.toNat / 64 % 64) :: (128 + c.toNat % 64) :: bs) :=
            utf8Loop_cont (by omega) (by omega) (by omega) _
          have e3 : utf8Loop (some (2, 0 * 64 + (128 + c.toNat / 4096 % 64 - 128), 128, 191))
                ((128 + c.toNat / 64 % 64) :: (128 + c.toNat % 64) :: bs)
              = utf8Loop (some (1, (0 * 64 + (128 + c.toNat / 4096 % 64 - 128)) * 64
                    + (128 + c.toNat / 64 % 64 - 128), 128, 191))
                  ((128 + c.toNat % 64) :: bs) :=
            utf8Loop_cont (by omega) (by omega) (by omega) _
          have e4 : utf8Loop (some (1, (0 * 64 + (128 + c.toNat / 4096 % 64 - 128)) * 64
                    + (128 + c.toNat / 64 % 64 - 128), 128, 191))
                ((128 + c.toNat % 64) :: bs)
              = Char.ofNat (((0 * 64 + (128 + c.toNat / 4096 % 64 - 128)) * 64
                      + (128 + c.toNat / 64 % 64 - 128)) * 64
                    + (128 + c.toNat % 64 - 128)) :: utf8Loop none bs :=
            utf8Loop_last (by omega) (by omega) _
          rw [e1, e2, e3, e4, show ((0 * 64 + (128 + c.toNat / 4096 % 64 - 128)) * 64
                  + (128 + c.toNat / 64 % 64 - 128)) * 64
                + (128 + c.toNat % 64 - 128) = c.toNat from by omega, Char.ofNat_toNat]
        · by_cases hB : 1048576 ≤ c.toNat
          · rw [show 240 + c.toNat / 262144 = 244 from by omega]
            have e1 := utf8Loop_startInr startByte_f4
                ((128 + c.toNat / 4096 % 64) :: (128 + c.toNat / 64 % 64)
                  :: (128 + c.toNat % 64) :: bs)
            have e2 : utf8Loop (some (3, 4, 128, 143))
                  ((128 + c.toNat / 4096 % 64) :: (128 + c.toNat / 64 % 64)
                    :: (128 + c.toNat % 64) :: bs)
                = utf8Loop (some (2, 4 * 64 + (128 + c.toNat / 4096 % 64 - 128), 128, 191))
                    ((128 + c.toNat / 64 % 64) :: (128 + c.toNat % 64) :: bs) :=
              utf8Loop_cont (by omega) (by omega) (by omega) _
            have e3 : utf8Loop (some (2, 4 * 64 + (128 + c.toNat / 4096 % 64 - 128), 128, 191))
                  ((128 + c.toNat / 64 % 64) :: (128 + c.toNat % 64) :: bs)
                = utf8Loop (some (1, (4 * 64 + (128 + c.toNat / 4096 % 64 - 128)) * 64
                      + (128 + c.toNat / 64 % 64 - 128), 128, 191))
                    ((128 + c.toNat % 64) :: bs) :=
              utf8Loop_cont (by omega) (by omega) (by omega) _
            have e4 : utf8Loop (some (1, (4 * 64 + (128 + c.toNat / 4096 % 64 - 128)) * 64
                      + (128 + c.toNat / 64 % 64 - 128), 128, 191))
                  ((128 + c.toNat % 64) :: bs)
                = Char.ofNat (((4 * 64 + (128 + c.toNat / 4096 % 64 - 128)) * 64
                        + (128 + c.toNat / 64 % 64 - 128)) * 64
                      + (128 + c.toNat % 64 - 128)) :: utf8Loop none bs :=
              utf8Loop_last (by omega) (by omega) _
            rw [e1, e2, e3, e4, show ((4 * 64 + (128 + c.toNat / 4096 % 64 - 128)) * 64
                    + (128 + c.toNat / 64 % 64 - 128)) * 64
                  + (128 + c.toNat % 64 - 128) = c.toNat from by omega, Char.ofNat_toNat]
          · have e1 : utf8Loop none ((240 + c.toNat / 262144)
                  :: (128 + c.toNat / 4096 % 64) :: (128 + c.toNat / 64 % 64)
                  :: (128 + c.toNat % 64) :: bs)
                = utf8Loop (some (3, 240 + c.toNat / 262144 - 240, 128, 191))
                    ((128 + c.toNat / 4096 % 64) :: (128 + c.toNat / 64 % 64)
                      :: (128 + c.toNat % 64) :: bs) :=
              utf8Loop_startInr (startByte_four (by omega) (by omega) (by omega)) _
            have e2 : utf8Loop (some (3, 240 + c.toNat / 262144 - 240, 128, 191))
                  ((128 + c.toNat / 4096 % 64) :: (128 + c.toNat / 64 % 64)
                    :: (128 + c.toNat % 64) :: bs)
                = utf8Loop (some (2, (240 + c.toNat / 262144 - 240) * 64
                      + (128 + c.toNat / 4096 % 64 - 128), 128, 191))
                    ((128 + c.toNat / 64 % 64) :: (128 + c.toNat % 64) :: bs) :=
              utf8Loop_cont (by omega) (by omega) (by omega) _
            have e3 : utf8Loop (some (2, (240 + c.toNat / 262144 - 240) * 64
                      + (128 + c.toNat / 4096 % 64 - 128), 128, 191))
                  ((128 + c.toNat / 64 % 64) :: (128 + c.toNat % 64) :: bs)
                = utf8Loop (some (1, ((240 + c.toNat / 262144 - 240) * 64
                        + (128 + c.toNat / 4096 % 64 - 128)) * 64
                      + (128 + c.toNat / 64 % 64 - 128), 128, 191))
                    ((128 + c.toNat % 64) :: bs) :=
              utf8Loop_cont (by omega) (by omega) (by omega) _
            have e4 : utf8Loop (some (1, ((240 + c.toNat / 262144 - 240) * 64
                        + (128 + c.toNat / 4096 % 64 - 128)) * 64
                      + (128 + c.toNat / 64 % 64 - 128), 128, 191))
                  ((128 + c.toNat % 64) :: bs)
                = Char.ofNat ((((240 + c.toNat / 262144 - 240) * 64
                          + (128 + c.toNat / 4096 % 64 - 128)) * 64
                        + (128 + c.toNat / 64 % 64 - 128)) * 64
                      + (128 + c.toNat % 64 - 128)) :: utf8Loop none bs :=
              utf8Loop_last (by omega) (by omega) _
            rw [e1, e2, e3, e4, show (((240 + c.toNat / 262144 - 240) * 64
                      + (128 + c.toNat / 4096 % 64 - 128)) * 64
                    + (128 + c.toNat / 64 % 64 - 128)) * 64
                  + (128 + c.toNat % 64 - 128) = c.toNat from by omega, Char.ofNat_toNat]

/-- Decoding the concatenated UTF-8 bytes of a string restores it. -/
theorem utf8Decode_encode (s : List Char) :
    utf8DecodeReplace (s.flatMap utf8Bytes) = s := by
  induction s with
  | nil => rfl
  | cons c rest ih =>
    simp only [utf8DecodeReplace, List.flatMap_cons] at ih ⊢
    rw [utf8Loop_encodeChar, ih]

/-- `unquote_plus` inverts `quote_plus`. -/
theorem unquote_plus_quote_plus (s : List Char) : unquote_plus (quote_plus s) = s := by
  have hascii : ∀ x ∈ s.flatMap quoteSpChar, isAsciiChar x = true := by
    intro x hx
    simp only [List.mem_flatMap] at hx
    obtain ⟨c, _, hxc⟩ := hx
    exact quoteSpChar_ascii hxc
  rw [unquote_plus, plusToSpace_quote, unquote_all_ascii hascii,
    show percentDecode (s.flatMap quoteSpChar) = s.flatMap utf8Bytes from pctLoop_quoteSp s,
    utf8Decode_encode]

/-! ## Nonemptiness of the decoders -/

theorem pctLoop_ne_nil : ∀ (cs : List Char) (st : Option (Option Char)),
    st ≠ none ∨ cs ≠ [] → pctLoop st cs ≠ [] := by
  intro cs
  induction cs with
  | nil =>
    intro st hst
    match st with
    | none =>
      rcases hst with h | h
      · exact absurd rfl h
      · exact absurd rfl h
    | some none => simp [pctLoop]
    | some (some a) => simp [pctLoop]
  | cons c rest ih =>
    intro st _
    match st with
    | none =>
      show (if c = '%' then pctLoop (some none) rest
        else c.toNat :: pctLoop none rest) ≠ []
      by_cases hc : c = '%'
      · rw [if_pos hc]
        exact ih (some none) (Or.inl (by simp))
      · rw [if_neg hc]
        simp
    | some none =>
      show (match hexVal c with
        | some _ => pctLoop (some (some c)) rest
        | none =>
          37 :: (if c = '%' then pctLoop (some none) rest
            else c.toNat :: pctLoop none rest)) ≠ []
      cases hv : hexVal c with
      | some x => exact ih (some (some c)) (Or.inl (by simp))
      | none => simp
    | some (some a) =>
      show (match hexVal a, hexVal c with
        | some x, some y => (16 * x + y) :: pctLoop none rest
        | _, _ =>
          37 :: a.toNat ::
            (if c = '%' then pctLoop (some none) rest
              else c.toNat :: pctLoop none rest)) ≠ []
      cases hva : hexVal a <;> cases hvc : hexVal c <;> simp

theorem percentDecode_ne_nil {cs : List Char} (h : cs ≠ []) : percentDecode cs ≠ [] :=
  pctLoop_ne_nil cs none (Or.inr h)

theorem startByte_inl_ne_nil {b : Nat} {cs : List Char} (h : startByte b = .inl cs) :
    cs ≠ [] := by
  simp only [startByte] at h
  repeat' split at h
  all_goals first
    | (injection h with h1; subst h1; simp)
    | (injection h)

theorem utf8Loop_ne_nil : ∀ (bs : List Nat) (st : Option (Nat × Nat × Nat × Nat)),
    st ≠ none ∨ bs ≠ [] → utf8Loop st bs ≠ [] := by
  intro bs
  induction bs with
  | nil =>
    intro st hst
    match st with
    | none =>
      rcases hst with h | h
      · exact absurd rfl h
      · exact absurd rfl h
    | some st0 => simp [utf8Loop]
  | cons b rest ih =>
    intro st _
    match st with
    | none =>
      cases hs : startByte b with
      | inl cs =>
        rw [utf8Loop_startInl hs]
        intro hcon
        rcases List.append_eq_nil.mp hcon with ⟨h1, _⟩
        exact startByte_inl_ne_nil hs h1
      | inr st2 =>
        rw [utf8Loop_startInr hs]
        exact ih (some st2) (Or.inl (by simp))
    | some st0 =>
      obtain ⟨k, acc, lo, hi⟩ := st0
      rw [utf8Loop_some_cons]
      by_cases hcond : lo ≤ b ∧ b ≤ hi
      · rw [if_pos hcond]
        by_cases hk : k = 1
        · rw [if_pos hk]
          simp
        · rw [if_neg hk]
          exact ih (some (k - 1, acc * 64 + (b - 128), 128, 191)) (Or.inl (by simp))
      · rw [if_neg hcond]
        simp

theorem utf8DecodeReplace_ne_nil {bs : List Nat} (h : bs ≠ []) :
    utf8DecodeReplace bs ≠ [] :=
  utf8Loop_ne_nil bs none (Or.inr h)

theorem decodeRun_ne_nil (c : Char) (run : List Char) :
    utf8DecodeReplace (percentDecode (c :: run)) ≠ [] :=
  utf8DecodeReplace_ne_nil (percentDecode_ne_nil (by simp))

theorem unquoteChars_ne_nil {cs : List Char} (h : cs ≠ []) : unquoteChars cs ≠ [] := by
  cases cs with
  | nil => exact absurd rfl h
  | cons c rest =>
    simp only [unquoteChars]
    by_cases hc : isAsciiChar c
    · rw [show asciiSplit (c :: rest) = asciiSplitStep c (asciiSplit rest) from by
        show (if isAsciiChar c then asciiSplitStep c (asciiSplit rest)
          else .inr c :: asciiSplit rest) = _
        rw [if_pos hc]]
      cases hrest : asciiSplit rest with
      | nil =>
        show ((asciiSplitStep c []).flatMap _) ≠ []
        simp only [asciiSplitStep, List.flatMap_cons, List.flatMap_nil, List.append_nil]
        exact decodeRun_ne_nil c []
      | cons t ts =>
        cases t with
        | inl run =>
          show ((Sum.inl (c :: run) :: ts).flatMap _) ≠ []
          simp only [List.flatMap_cons]
          intro hcon
          rcases List.append_eq_nil.mp hcon with ⟨h1, _⟩
          exact decodeRun_ne_nil c run h1
        | inr c2 =>
          show ((Sum.inl [c] :: Sum.inr c2 :: ts).flatMap _) ≠ []
          simp only [List.flatMap_cons]
          intro hcon
          rcases List.append_eq_nil.mp hcon with ⟨h1, _⟩
          exact decodeRun_ne_nil c [] h1
    · rw [show asciiSplit (c :: rest) = .inr c :: asciiSplit rest from by
        show (if isAsciiChar c then asciiSplitStep c (asciiSplit rest)
          else .inr c :: asciiSplit rest) = _
        rw [if_neg hc]]
      simp only [List.flatMap_cons]
      simp

theorem unquote_plus_ne_nil {cs : List Char} (h : cs ≠ []) : unquote_plus cs ≠ [] := by
  rw [unquote_plus]
  apply unquoteChars_ne_nil
  cases cs with
  | nil => exact absurd rfl h
  | cons c rest => simp [plusToSpace]

/-! ## Round-trip of `parse_qs` over `urlencode` -/

theorem splitAtFirst_append {sep : Char} {a : List Char} (h : sep ∉ a) (b : List Char) :
    splitAtFirst sep (a ++ sep :: b) = some (a, b) := by
  induction a with
  | nil =>
    show (if sep = sep then some (([] : List Char), b)
      else (splitAtFirst sep b).map (fun p => (sep :: p.1, p.2))) = some ([], b)
    rw [if_pos rfl]
  | cons c a2 ih =>
    have hc : c ≠ sep := fun he => h (by simp [he])
    show (if c = sep then some (([] : List Char), a2 ++ sep :: b)
      else (splitAtFirst sep (a2 ++ sep :: b)).map (fun p => (c :: p.1, p.2)))
      = some (c :: a2, b)
    rw [if_neg hc, ih (fun hm => h (by simp [hm]))]
    rfl

theorem splitOnChar_ne_nil (sep : Char) (cs : List Char) : splitOnChar sep cs ≠ [] := by
  cases cs with
  | nil => simp [splitOnChar]
  | cons c rest =>
    show (match splitOnChar sep rest with
      | [] => [[]]
      | r :: rs => if c = sep then [] :: r :: rs else (c :: r) :: rs) ≠ []
    cases hr : splitOnChar sep rest with
    | nil => simp
    | cons r rs =>
      by_cases hc : c = sep <;> simp [hc]

theorem splitOnChar_no_sep {sep : Char} {p : List Char} (h : sep ∉ p) :
    splitOnChar sep p = [p] := by
  induction p with
  | nil => rfl
  | cons c rest ih =>
    have hc : c ≠ sep := fun he => h (by simp [he])
    show (match splitOnChar sep rest with
      | [] => [[]]
      | r :: rs => if c = sep then [] :: r :: rs else (c :: r) :: rs) = [c :: rest]
    rw [ih (fun hm => h (by simp [hm]))]
    simp [hc]

theorem splitOnChar_append {sep : Char} {p : List Char} (h : sep ∉ p) (t : List Char) :
    splitOnChar sep (p ++ sep :: t) = p :: splitOnChar sep t := by
  induction p with
  | nil =>
    show (match splitOnChar sep t with
      | [] => [[]]
      | r :: rs => if sep = sep then [] :: r :: rs else (sep :: r) :: rs)
      = [] :: splitOnChar sep t
    cases hr : splitOnChar sep t with
    | nil => exact absurd hr (splitOnChar_ne_nil sep t)
    | cons r rs => simp
  | cons c p2 ih =>
    have hc : c ≠ sep := fun he => h (by simp [he])
    show (match splitOnChar sep (p2 ++ sep :: t) with
      | [] => [[]]
      | r :: rs => if c = sep then [] :: r :: rs else (c :: r) :: rs)
      = (c :: p2) :: splitOnChar sep t
    rw [ih (fun hm => h (by simp [hm]))]
    simp [hc]

theorem splitOnChar_joinWithAmp {ps : List (List Char)}
    (h : ∀ p ∈ ps, '&' ∉ p) (hne : ps ≠ []) :
    splitOnChar '&' (joinWithAmp ps) = ps := by
  induction ps with
  | nil => exact absurd rfl hne
  | cons p ps2 ih =>
    cases ps2 with
    | nil => exact splitOnChar_no_sep (h p (by simp))
    | cons q qs =>
      show splitOnChar '&' (p ++ '&' :: joinWithAmp (q :: qs)) = p :: q :: qs
      rw [splitOnChar_append (h p (by simp)),
        ih (fun x hx => h x (by simp [hx])) (by simp)]

theorem filterMap_map_id {α β : Type} {g : α → β} {f : β → Option α} {l : List α}
    (h : ∀ a ∈ l, f (g a) = some a) : (l.map g).filterMap f = l := by
  induction l with
  | nil => rfl
  | cons a t ih =>
    rw [List.map_cons, List.filterMap_cons, h a (by simp),
      ih (fun x hx => h x (by simp [hx]))]

/-- `parse_qsl` recovers an encoded pair list whose raw values are
nonempty. -/
theorem parse_qsl_encodePairs {P : List (List Char × List Char)}
    (hP : ∀ p ∈ P, p.2 ≠ []) :
    parse_qsl (joinWithAmp
      (P.map (fun p => quote_plus p.1 ++ '=' :: quote_plus p.2))) = P := by
  cases hPn : P with
  | nil => rfl
  | cons p0 P2 =>
    subst hPn
    simp only [parse_qsl]
    have hAmp : ∀ f ∈ (p0 :: P2).map (fun p => quote_plus p.1 ++ '=' :: quote_plus p.2),
        '&' ∉ f := by
      intro f hf
      rw [List.mem_map] at hf
      obtain ⟨p, _, hfe⟩ := hf
      subst hfe
      intro hmem
      rcases List.mem_append.mp hmem with hm | hm
      · exact (quote_plus_ne_amp_eq hm).1 rfl
      · rcases List.mem_cons.mp hm with hm2 | hm2
        · exact absurd hm2 (by decide)
        · exact (quote_plus_ne_amp_eq hm2).1 rfl
    rw [splitOnChar_joinWithAmp hAmp (by simp)]
    apply filterMap_map_id
    intro p hp
    have hfne : quote_plus p.1 ++ '=' :: quote_plus p.2 ≠ [] := by simp
    rw [if_neg hfne,
      splitAtFirst_append (fun hm => (quote_plus_ne_amp_eq hm).2 rfl) (quote_plus p.2)]
    have hvne : quote_plus p.2 ≠ [] := quote_plus_ne_nil (hP p hp)
    show (if quote_plus p.2 = [] then none
      else some (unquote_plus (quote_plus p.1), unquote_plus (quote_plus p.2))) = some p
    rw [if_neg hvne, unquote_plus_quote_plus, unquote_plus_quote_plus]

/-- `urlencode` viewed as the `&`-join over the flattened pair list. -/
theorem urlencode_eq_pairs (Q : List (List Char × List (List Char))) :
    urlencode Q
      = joinWithAmp ((Q.flatMap (fun kv => kv.2.map (fun v => (kv.1, v)))).map
          (fun p => quote_plus p.1 ++ '=' :: quote_plus p.2)) := by
  rw [urlencode]
  congr 1
  induction Q with
  | nil => rfl
  | cons kv Q2 ih =>
    rw [List.flatMap_cons, List.flatMap_cons, List.map_append, ih, List.map_map]
    rfl

theorem addQsPair_new {k : List Char} {v : List Char}
    {acc : List (List Char × List (List Char))} (hk : ∀ e ∈ acc, e.1 ≠ k) :
    addQsPair acc (k, v) = acc ++ [(k, [v])] := by
  induction acc with
  | nil => rfl
  | cons e rest ih =>
    show (if e.1 = k then (e.1, e.2 ++ [v]) :: rest else e :: addQsPair rest (k, v))
      = (e :: rest) ++ [(k, [v])]
    rw [if_neg (hk e (by simp)), ih (fun x hx => hk x (by simp [hx]))]
    rfl

theorem addQsPair_last {k : List Char} {v : List Char} {vs : List (List Char)}
    {acc : List (List Char × List (List Char))} (hk : ∀ e ∈ acc, e.1 ≠ k) :
    addQsPair (acc ++ [(k, vs)]) (k, v) = acc ++ [(k, vs ++ [v])] := by
  induction acc with
  | nil =>
    show (if k = k then (k, vs ++ [v]) :: ([] : List (List Char × List (List Char)))
      else (k, vs) :: addQsPair [] (k, v)) = [(k, vs ++ [v])]
    rw [if_pos rfl]
  | cons e rest ih =>
    show (if e.1 = k then (e.1, e.2 ++ [v]) :: (rest ++ [(k, vs)])
      else e :: addQsPair (rest ++ [(k, vs)]) (k, v)) = (e :: rest) ++ [(k, vs ++ [v])]
    rw [if_neg (hk e (by simp)), ih (fun x hx => hk x (by simp [hx]))]
    rfl

theorem foldl_addQsPair_values {k : List Char}
    {acc : List (List Char × List (List Char))} (hk : ∀ e ∈ acc, e.1 ≠ k)
    (vs vs0 : List (List Char)) :
    ((vs.map (fun v => (k, v))).foldl addQsPair (acc ++ [(k, vs0)]))
      = acc ++ [(k, vs0 ++ vs)] := by
  induction vs generalizing vs0 with
  | nil => simp
  | cons v vs2 ih =>
    rw [List.map_cons, List.foldl_cons, addQsPair_last hk, ih]
    simp

theorem foldl_addQsPair_group {k : List Char} {vs : List (List Char)}
    {acc : List (List Char × List (List Char))} (hk : ∀ e ∈ acc, e.1 ≠ k)
    (hvs : vs ≠ []) :
    ((vs.map (fun v => (k, v))).foldl addQsPair acc) = acc ++ [(k, vs)] := by
  cases vs with
  | nil => exact absurd rfl hvs
  | cons v vs2 =>
    rw [List.map_cons, List.foldl_cons, addQsPair_new hk, foldl_addQsPair_values hk]
    simp

theorem foldl_addQsPair_flat {Q : List (List Char × List (List Char))} :
    ∀ {acc : List (List Char × List (List Char))},
    (∀ kv ∈ Q, ∀ e ∈ acc, e.1 ≠ kv.1) → (Q.map Prod.fst).Nodup →
    (∀ kv ∈ Q, kv.2 ≠ []) →
    ((Q.flatMap (fun kv => kv.2.map (fun v => (kv.1, v)))).foldl addQsPair acc)
      = acc ++ Q := by
  induction Q with
  | nil =>
    intro acc _ _ _
    simp
  | cons kv Q2 ih =>
    intro acc hdisj hnodup hvals
    simp only [List.map_cons, List.nodup_cons] at hnodup
    rw [List.flatMap_cons, List.foldl_append,
      foldl_addQsPair_group (fun e he => hdisj kv (by simp) e he) (hvals kv (by simp))]
    have hd : ∀ kv2 ∈ Q2, ∀ e ∈ acc ++ [(kv.1, kv.2)], e.1 ≠ kv2.1 := by
      intro kv2 hkv2 e he
      rcases List.mem_append.mp he with h | h
      · exact hdisj kv2 (by simp [hkv2]) e h
      · rw [List.mem_singleton] at h
        subst h
        intro heq
        exact hnodup.1 (heq ▸ List.mem_map_of_mem Prod.fst hkv2)
    rw [ih hd hnodup.2 (fun kv2 h2 => hvals kv2 (by simp [h2]))]
    simp

/-- `parse_qs ∘ urlencode` is the identity on well-formed query dicts:
distinct keys, nonempty value lists, nonempty values. -/
theorem parse_qs_urlencode {Q : List (List Char × List (List Char))}
    (hnodup : (Q.map Prod.fst).Nodup)
    (hvals : ∀ kv ∈ Q, kv.2 ≠ [] ∧ ∀ v ∈ kv.2, v ≠ []) :
    parse_qs (urlencode Q) = Q := by
  have hp : ∀ p ∈ Q.flatMap (fun kv => kv.2.map (fun v => (kv.1, v))), p.2 ≠ [] := by
    intro p hp
    simp only [List.mem_flatMap, List.mem_map] at hp
    obtain ⟨kv, hkv, v, hv, hpe⟩ := hp
    subst hpe
    exact (hvals kv hkv).2 v hv
  simp only [parse_qs, urlencode_eq_pairs, parse_qsl_encodePairs hp]
  rw [foldl_addQsPair_flat (fun kv _ e he => absurd he (List.not_mem_nil e)) hnodup
    (fun kv h => (hvals kv h).1)]
  simp

/-! ## Well-formedness of `parse_qs` output, masking, and claim C7 -/

theorem parse_qsl_vals_ne_nil (qs : List Char) : ∀ p ∈ parse_qsl qs, p.2 ≠ [] := by
  intro p hp
  simp only [parse_qsl, List.mem_filterMap] at hp
  obtain ⟨nv, _, hnv⟩ := hp
  by_cases h0 : nv = []
  · rw [if_pos h0] at hnv
    exact absurd hnv (by simp)
  · rw [if_neg h0] at hnv
    cases hsp : splitAtFirst '=' nv with
    | none =>
      simp only [hsp] at hnv
      exact absurd hnv (by simp)
    | some pr =>
      simp only [hsp] at hnv
      by_cases h2 : pr.2 = []
      · rw [if_pos h2] at hnv
        exact absurd hnv (by simp)
      · rw [if_neg h2] at hnv
        rw [Option.some.injEq] at hnv
        subst hnv
        exact unquote_plus_ne_nil h2

theorem addQsPair_fst (acc : List (List Char × List (List Char)))
    (kv : List Char × List Char) :
    (addQsPair acc kv).map Prod.fst
      = if kv.1 ∈ acc.map Prod.fst then acc.map Prod.fst
        else acc.map Prod.fst ++ [kv.1] := by
  induction acc with
  | nil => simp [addQsPair]
  | cons e rest ih =>
    show ((if e.1 = kv.1 then (e.1, e.2 ++ [kv.2]) :: rest
      else e :: addQsPair rest kv).map Prod.fst) = _
    simp only [List.map_cons]
    by_cases he : e.1 = kv.1
    · rw [if_pos he, if_pos (by simp [he.symm])]
      rfl
    · rw [if_neg he, List.map_cons, ih]
      by_cases hm : kv.1 ∈ rest.map Prod.fst
      · rw [if_pos hm, if_pos (by simp [hm])]
      · rw [if_neg hm, if_neg (by
          intro hcon
          rcases List.mem_cons.mp hcon with h | h
          · exact he h.symm
          · exact hm h)]
        rfl

theorem addQsPair_fst_nodup {acc : List (List Char × List (List Char))}
    {kv : List Char × List Char} (h : (acc.map Prod.fst).Nodup) :
    ((addQsPair acc kv).map Prod.fst).Nodup := by
  rw [addQsPair_fst]
  by_cases hm : kv.1 ∈ acc.map Prod.fst
  · rw [if_pos hm]
    exact h
  · rw [if_neg hm, List.nodup_append]
    refine ⟨h, List.nodup_singleton _, ?_⟩
    intro a ha hb
    rw [List.mem_singleton] at hb
    subst hb
    exact hm ha

theorem addQsPair_vals {acc : List (List Char × List (List Char))}
    {kv : List Char × List Char}
    (h : ∀ e ∈ acc, e.2 ≠ [] ∧ ∀ v ∈ e.2, v ≠ []) (hv : kv.2 ≠ []) :
    ∀ e ∈ addQsPair acc kv, e.2 ≠ [] ∧ ∀ v ∈ e.2, v ≠ [] := by
  induction acc with
  | nil =>
    intro e he
    simp only [addQsPair, List.mem_singleton] at he
    subst he
    refine ⟨by simp, ?_⟩
    intro v hv2
    rw [List.mem_singleton] at hv2
    subst hv2
    exact hv
  | cons e0 rest ih =>
    intro e he
    rw [show addQsPair (e0 :: rest) kv
        = (if e0.1 = kv.1 then (e0.1, e0.2 ++ [kv.2]) :: rest
           else e0 :: addQsPair rest kv) from rfl] at he
    by_cases h0 : e0.1 = kv.1
    · rw [if_pos h0] at he
      rcases List.mem_cons.mp he with he1 | he1
      · subst he1
        refine ⟨by simp, ?_⟩
        intro v hv2
        rcases List.mem_append.mp hv2 with hv3 | hv3
        · exact (h e0 (by simp)).2 v hv3
        · rw [List.mem_singleton] at hv3
          subst hv3
          exact hv
      · exact h e (by simp [he1])
    · rw [if_neg h0] at he
      rcases List.mem_cons.mp he with he1 | he1
      · subst he1
        exact h e (by simp)
      · exact ih (fun x hx => h x (by simp [hx])) e he1

theorem parse_qs_wf_aux {ps : List (List Char × List Char)}
    (hp : ∀ p ∈ ps, p.2 ≠ []) :
    ∀ {acc : List (List Char × List (List Char))}, (acc.map Prod.fst).Nodup →
    (∀ e ∈ acc, e.2 ≠ [] ∧ ∀ v ∈ e.2, v ≠ []) →
    ((ps.foldl addQsPair acc).map Prod.fst).Nodup
    ∧ ∀ e ∈ ps.foldl addQsPair acc, e.2 ≠ [] ∧ ∀ v ∈ e.2, v ≠ [] := by
  induction ps with
  | nil =>
    intro acc h1 h2
    exact ⟨h1, h2⟩
  | cons p ps2 ih =>
    intro acc h1 h2
    rw [List.foldl_cons]
    exact ih (fun q hq => hp q (by simp [hq])) (addQsPair_fst_nodup h1)
      (addQsPair_vals h2 (hp p (by simp)))

/-- `parse_qs` always yields a well-formed dict: distinct keys, nonempty
value lists, nonempty values. -/
theorem parse_qs_wf (qs : List Char) :
    ((parse_qs qs).map Prod.fst).Nodup
    ∧ ∀ e ∈ parse_qs qs, e.2 ≠ [] ∧ ∀ v ∈ e.2, v ≠ [] :=
  parse_qs_wf_aux (parse_qsl_vals_ne_nil qs) List.nodup_nil
    (fun e he => absurd he (List.not_mem_nil e))

theorem maskParams_fst (ks : List (List Char)) (Q : List (List Char × List (List Char))) :
    (maskParams ks Q).map Prod.fst = Q.map Prod.fst := by
  induction Q with
  | nil => rfl
  | cons kv Q2 ih =>
    simp only [maskParams, List.map_cons] at ih ⊢
    rw [ih]
    by_cases h : kv.1 ∈ ks <;> simp [h]

theorem maskParams_wf {ks : List (List Char)} {Q : List (List Char × List (List Char))}
    (h : ∀ kv ∈ Q, kv.2 ≠ [] ∧ ∀ v ∈ kv.2, v ≠ []) :
    ∀ kv ∈ maskParams ks Q, kv.2 ≠ [] ∧ ∀ v ∈ kv.2, v ≠ [] := by
  intro kv hkv
  simp only [maskParams, List.mem_map] at hkv
  obtain ⟨kv0, hkv0, heq⟩ := hkv
  by_cases hk : kv0.1 ∈ ks
  · rw [if_pos hk] at heq
    subst heq
    refine ⟨?_, ?_⟩
    · intro hcon
      have hlen := congrArg List.length hcon
      simp only [List.length_replicate, List.length_nil] at hlen
      exact (h kv0 hkv0).1 (List.length_eq_zero.mp hlen)
    · intro v hv
      have := List.eq_of_mem_replicate hv
      subst this
      decide
  · rw [if_neg hk] at heq
    subst heq
    exact h kv0 hkv0

theorem alookup_maskParams {ks : List (List Char)}
    {Q : List (List Char × List (List Char))} {k : List Char} {vs : List (List Char)}
    (hk : k ∈ ks) (hvs : alookup Q k = some vs) :
    alookup (maskParams ks Q) k = some (List.replicate vs.length STR_REDACTED.data) := by
  induction Q with
  | nil => simp [alookup] at hvs
  | cons kv Q2 ih =>
    rw [show maskParams ks (kv :: Q2)
        = (if kv.1 ∈ ks then (kv.1, List.replicate kv.2.length STR_REDACTED.data) else kv)
          :: maskParams ks Q2 from rfl]
    rw [show alookup (kv :: Q2) k = if kv.1 = k then some kv.2 else alookup Q2 k
      from rfl] at hvs
    by_cases hkk : kv.1 = k
    · rw [if_pos hkk, Option.some.injEq] at hvs
      subst hvs
      rw [if_pos (hkk ▸ hk)]
      rw [show alookup ((kv.1, List.replicate kv.2.length STR_REDACTED.data)
            :: maskParams ks Q2) k
          = if kv.1 = k then some (List.replicate kv.2.length STR_REDACTED.data)
            else alookup (maskParams ks Q2) k from rfl, if_pos hkk]
    · rw [if_neg hkk] at hvs
      by_cases hin : kv.1 ∈ ks
      · rw [if_pos hin,
          show alookup ((kv.1, List.replicate kv.2.length STR_REDACTED.data)
              :: maskParams ks Q2) k
            = if kv.1 = k then some (List.replicate kv.2.length STR_REDACTED.data)
              else alookup (maskParams ks Q2) k from rfl, if_neg hkk]
        exact ih hvs
      · rw [if_neg hin,
          show alookup (kv :: maskParams ks Q2) k
            = if kv.1 = k then some kv.2 else alookup (maskParams ks Q2) k from rfl,
          if_neg hkk]
        exact ih hvs

/-- C7.  Masking preserves the multiplicity of repeated sensitive
parameters: whenever the parsed query of a URL holds `n` values under a
masked key, the rebuilt query string of `mask_query_string` parses back
to exactly `n` copies of `"REDACTED"` under that key; concretely,
masking `a` in `https://x.example/p?a=1&a=2` yields
`https://x.example/p?a=REDACTED&a=REDACTED` — two masked values, not
one. -/
theorem C7_repeated_values_masked :
    (∀ (url : List Char) (ks : List (List Char)) (k : List Char) (vs : List (List Char)),
      k ∈ ks → alookup (parse_qs (urlparse url).query) k = some vs →
      alookup (parse_qs (masked_query url ks)) k
        = some (List.replicate vs.length STR_REDACTED.data))
    ∧ mask_query_string "https://x.example/p?a=1&a=2" ["a"]
        = "https://x.example/p?a=REDACTED&a=REDACTED" := by
  constructor
  · intro url ks k vs hk hvs
    have hwf := parse_qs_wf (urlparse url).query
    have hnodup : ((maskParams ks (parse_qs (urlparse url).query)).map Prod.fst).Nodup := by
      rw [maskParams_fst]
      exact hwf.1
    have hvals : ∀ kv ∈ maskParams ks (parse_qs (urlparse url).query),
        kv.2 ≠ [] ∧ ∀ v ∈ kv.2, v ≠ [] := maskParams_wf hwf.2
    rw [show masked_query url ks
        = urlencode (maskParams ks (parse_qs (urlparse url).query)) from rfl]
    rw [parse_qs_urlencode hnodup hvals]
    exact alookup_maskParams hk hvs
  · rfl

/-- Witness for C7 at the spec example: the query of
`https://x.example/p?a=1&a=2` parses to two values under `a`, and the
masked URL's query parses to two copies of `"REDACTED"`. -/
theorem C7_witness :
    alookup (parse_qs (urlparse ("https://x.example/p?a=1&a=2".data)).query) ("a".data)
      = some ["1".data, "2".data]
    ∧ alookup (parse_qs (masked_query ("https://x.example/p?a=1&a=2".data) ["a".data]))
        ("a".data)
      = some (List.replicate 2 STR_REDACTED.data) :=
  ⟨rfl, C7_repeated_values_masked.1 ("https://x.example/p?a=1&a=2".data) ["a".data]
    ("a".data) ["1".data, "2".data] (List.mem_singleton.mpr rfl) rfl⟩

end AHS
